import Mathlib

/-!
Verification of the MCW calibration automation codec and orchestrator.

This file embeds, as executable Lean definitions, the core functions of the
repository (steps.py, 3P3W.py, calibration.py, caldone.py) and proves the
stated properties about them.

Conventions of the embedding:
* Python `bytes` values are `List Nat` with entries in 0..255 (the functions
  that construct them only produce values in that range).
* Python `str` values are `List Char`; the hardware responses are decoded
  with latin-1, so each byte becomes the character of the same code point.
* Python functions that raise exceptions are embedded as `Option`-valued
  functions (`none` models the raise).
* Machine integers are `Nat`/`Int` with explicit masking where Python
  applies it.
-/

/-! ## Codec: steps.py -/

/-- One shift round of the Modbus CRC16: if the LSB is set, shift right and
xor with 0xA001, else just shift right (steps.py, inner loop body). -/
def crc16_shift (crc : Nat) : Nat :=
  if crc &&& 1 = 1 then (crc >>> 1) ^^^ 0xA001 else crc >>> 1

/-- Modbus CRC16 of a byte stream (steps.py `crc16_fn`): start from 0xFFFF,
xor each byte in, run 8 shift rounds per byte, mask the result to 16 bits. -/
def crc16_fn (data : List Nat) : Nat :=
  (data.foldl (fun crc b => (List.range 8).foldl (fun c _ => crc16_shift c) (crc ^^^ b)) 0xFFFF)
    &&& 0xFFFF

/-- The character for one uppercase hex digit (value 0..15). -/
def hexDigitChar (n : Nat) : Char :=
  if n < 10 then Char.ofNat (48 + n) else Char.ofNat (55 + n)

/-- The two-uppercase-hex-digit rendering of one byte value 0..255, as
produced by Python `"%02X" % b` for b in the byte range. -/
def hexByteChars (b : Nat) : List Char :=
  [hexDigitChar (b / 16), hexDigitChar (b % 16)]

/-- Uppercase hex rendering of a byte string, as produced by Python
`bs.hex().upper()`. -/
def bytesToHexUpper (bs : List Nat) : List Char :=
  (bs.map hexByteChars).flatten

/-- steps.py `bytes_to_mcw_hex`: render every byte as the token `^h`
followed by its two uppercase hex digits. -/
def bytes_to_mcw_hex (byte_seq : List Nat) : List Char :=
  (byte_seq.map (fun b => '^' :: 'h' :: hexByteChars b)).flatten

/-- steps.py `build_simple_mcw`: `MCW<meter_num>,` followed by the `^hXX`
tokens of the raw bytes. Raises (here: `none`) when `meter_num` is negative
or exceeds `config.METER_COUNT` (passed here as the `meterCount` argument,
since config.py obtains it from an operator prompt at run time). -/
def build_simple_mcw (meterCount : Nat) (meter_num : Int) (raw_bytes : List Nat) :
    Option (List Char) :=
  if meter_num < 0 ∨ meter_num > (meterCount : Int) then none
  else some (("MCW" ++ toString meter_num ++ ",").data ++ bytes_to_mcw_hex raw_bytes)

/-- Big-endian 16-bit encoding, as `struct.pack('>H', v)` for v < 65536
(the only way the sources call it). -/
def u16be (v : Nat) : List Nat :=
  [v / 256 % 256, v % 256]

/-- Big-endian 32-bit encoding, as `struct.pack('>HH', hi, lo)` of the two
16-bit halves of a 32-bit word. -/
def u32be (w : Nat) : List Nat :=
  [w / 16777216 % 256, w / 65536 % 256, w / 256 % 256, w % 256]

/-- Position of the most significant bit of `v` (the base-2 logarithm),
computed structurally so that it evaluates inside the kernel; valid for
`v < 2 ^ 128`, far beyond every value the sources encode. -/
def floatExp (v : Nat) : Nat :=
  ((List.range 128).filter (fun i => 2 ^ i ≤ v)).length - 1

/-- IEEE-754 binary32 bit pattern of a nonnegative integer, with
round-to-nearest-even on the 24-bit significand. This is
`struct.unpack('>I', struct.pack('>f', float(v)))[0]` for natural `v` whose
magnitude stays below the binary32 overflow threshold (all values the
sources pass are small step codes, far below it). -/
def pack_float32_pos (v : Nat) : Nat :=
  if v = 0 then 0
  else
    let k := floatExp v
    if k ≤ 23 then
      (k + 127) * 8388608 + (v * 2 ^ (23 - k) - 8388608)
    else
      let s := k - 23
      let q := v / 2 ^ s
      let r := v % 2 ^ s
      let half := 2 ^ (s - 1)
      let q' := if half < r ∨ (r = half ∧ q % 2 = 1) then q + 1 else q
      if q' = 16777216 then (k + 128) * 8388608
      else (k + 127) * 8388608 + (q' - 8388608)

/-- IEEE-754 binary32 bit pattern of an integer value, as
`struct.pack('>f', float(v))` (sign bit plus magnitude encoding). -/
def pack_float32 (v : Int) : Nat :=
  if v < 0 then 2147483648 + pack_float32_pos v.natAbs else pack_float32_pos v.natAbs

/-- steps.py `build_modbus_write_multiple_float`: write-multiple-registers
PDU carrying the big-endian binary32 encodings of the values, with the CRC
appended low byte first, escaped into an MCW command. -/
def build_modbus_write_multiple_float (meterCount : Nat) (meter_num : Int)
    (slave_id start_addr : Nat) (values : List Int) : Option (List Char) :=
  let regs_bytes := (values.map (fun v => u32be (pack_float32 v))).flatten
  let reg_count := values.length * 2
  let byte_count := reg_count * 2
  let header := slave_id :: 0x10 :: (u16be start_addr ++ u16be reg_count ++ [byte_count])
  let pdu := header ++ regs_bytes
  let crc := crc16_fn pdu
  let pdu_full := pdu ++ [crc &&& 0xFF, crc >>> 8]
  build_simple_mcw meterCount meter_num pdu_full

/-- steps.py `build_modbus_read_cmd`: read-holding-registers PDU with the
CRC appended low byte first, escaped into an MCW command. -/
def build_modbus_read_cmd (meterCount : Nat) (meter_num : Int)
    (slave_id start_addr reg_count : Nat) : Option (List Char) :=
  let pdu := slave_id :: 0x03 :: (u16be start_addr ++ u16be reg_count)
  let crc := crc16_fn pdu
  let pdu_full := pdu ++ [crc &&& 0xFF, crc >>> 8]
  build_simple_mcw meterCount meter_num pdu_full

/-! ## Escape decoding (3P3W.py, calibration.py, caldone.py) -/

/-- Characters that Python `str.strip()` / `int(s, base)` treat as strippable
whitespace, restricted to the latin-1 range the decoders operate on. -/
def pyWhite (c : Char) : Bool :=
  c = ' ' || c = '\t' || c = '\n' || c = '\x0b' || c = '\x0c' || c = '\r' ||
  c = '\x1c' || c = '\x1d' || c = '\x1e' || c = '\x1f' || c = '\x85' || c = '\xa0'

/-- ASCII decimal digit test (what the regex class of digits matches on
latin-1 input). -/
def asciiDigit (c : Char) : Bool :=
  '0' ≤ c && c ≤ '9'

/-- Value of one hexadecimal digit character, if it is one. -/
def hexDigitVal (c : Char) : Option Nat :=
  if '0' ≤ c ∧ c ≤ '9' then some (c.toNat - 48)
  else if 'a' ≤ c ∧ c ≤ 'f' then some (c.toNat - 87)
  else if 'A' ≤ c ∧ c ≤ 'F' then some (c.toNat - 55)
  else none

/-- Python `int(s, 16)` on the two-character string made of `a` and `b`
(latin-1 range): two hex digits, or a sign followed by one digit, or one
digit padded by strippable whitespace; anything else raises (`none`). -/
def pyIntHex2 (a b : Char) : Option Int :=
  match hexDigitVal a, hexDigitVal b with
  | some x, some y => some ((16 * x + y : Nat) : Int)
  | some x, none => if pyWhite b then some ((x : Nat) : Int) else none
  | none, some y =>
      if a = '+' then some ((y : Nat) : Int)
      else if a = '-' then some (-((y : Nat) : Int))
      else if pyWhite a then some ((y : Nat) : Int)
      else none
  | none, none => none

/-- The byte appended for a `^h`-escape whose two following characters are
`a` and `b`: Python parses them with `int(·, 16)` and appends to a
bytearray; a parse failure or an out-of-byte-range value raises ValueError,
which the decoders catch (`none`). -/
def hexPairByte (a b : Char) : Option Nat :=
  match pyIntHex2 a b with
  | some v => if 0 ≤ v ∧ v ≤ 255 then some v.toNat else none
  | none => none

/-- 3P3W.py `decode_escapes`, byte level (the `out` bytearray): `^hXX` is a
hex byte; on a failed hex parse the branch falls through and the literal
`^` (0x5E) is emitted with the scan advancing one character; `^X` is
`ord(X) & 0x1F`; `<NNN>` with NNN three decimal digits in 128..255 is that
byte; any other character is its own code point. -/
def decode_escapes_out : List Char → List Nat
  | [] => []
  | '^' :: 'h' :: a :: b :: rest =>
      (match hexPairByte a b with
       | some v => v :: decode_escapes_out rest
       | none => 94 :: decode_escapes_out ('h' :: a :: b :: rest))
  | '^' :: x :: rest => (x.toNat &&& 0x1F) :: decode_escapes_out rest
  | ['^'] => [94]
  | '<' :: d1 :: d2 :: d3 :: '>' :: rest =>
      if asciiDigit d1 && asciiDigit d2 && asciiDigit d3 then
        let v := 100 * (d1.toNat - 48) + 10 * (d2.toNat - 48) + (d3.toNat - 48)
        if 128 ≤ v ∧ v ≤ 255 then v :: decode_escapes_out rest
        else 60 :: decode_escapes_out (d1 :: d2 :: d3 :: '>' :: rest)
      else 60 :: decode_escapes_out (d1 :: d2 :: d3 :: '>' :: rest)
  | c :: rest => c.toNat :: decode_escapes_out rest

/-- 3P3W.py `decode_escapes`: the decoded bytes rendered as uppercase hex
(`out.hex().upper()`). -/
def decode_escapes (payload : List Char) : List Char :=
  bytesToHexUpper (decode_escapes_out payload)

/-- calibration.py `decode_escapes`, byte level: textually the same
algorithm as the 3P3W.py copy. -/
def decode_escapes_out_cal : List Char → List Nat
  | [] => []
  | '^' :: 'h' :: a :: b :: rest =>
      (match hexPairByte a b with
       | some v => v :: decode_escapes_out_cal rest
       | none => 94 :: decode_escapes_out_cal ('h' :: a :: b :: rest))
  | '^' :: x :: rest => (x.toNat &&& 0x1F) :: decode_escapes_out_cal rest
  | ['^'] => [94]
  | '<' :: d1 :: d2 :: d3 :: '>' :: rest =>
      if asciiDigit d1 && asciiDigit d2 && asciiDigit d3 then
        let v := 100 * (d1.toNat - 48) + 10 * (d2.toNat - 48) + (d3.toNat - 48)
        if 128 ≤ v ∧ v ≤ 255 then v :: decode_escapes_out_cal rest
        else 60 :: decode_escapes_out_cal (d1 :: d2 :: d3 :: '>' :: rest)
      else 60 :: decode_escapes_out_cal (d1 :: d2 :: d3 :: '>' :: rest)
  | c :: rest => c.toNat :: decode_escapes_out_cal rest

/-- calibration.py `decode_escapes`: uppercase hex rendering of the bytes. -/
def decode_escapes_cal (payload : List Char) : List Char :=
  bytesToHexUpper (decode_escapes_out_cal payload)

/-- caldone.py `decode_escapes` (returns raw bytes): its `^`-branch uses two
separate `if` statements instead of `if`/`elif`, so on a failed `^hXX` hex
parse it falls into the control-character branch and emits
`ord('h') & 0x1F = 0x08`, advancing two characters. -/
def decode_escapes_caldone : List Char → List Nat
  | [] => []
  | '^' :: 'h' :: a :: b :: rest =>
      (match hexPairByte a b with
       | some v => v :: decode_escapes_caldone rest
       | none => 8 :: decode_escapes_caldone (a :: b :: rest))
  | '^' :: x :: rest => (x.toNat &&& 0x1F) :: decode_escapes_caldone rest
  | ['^'] => [94]
  | '<' :: d1 :: d2 :: d3 :: '>' :: rest =>
      if asciiDigit d1 && asciiDigit d2 && asciiDigit d3 then
        let v := 100 * (d1.toNat - 48) + 10 * (d2.toNat - 48) + (d3.toNat - 48)
        if 128 ≤ v ∧ v ≤ 255 then v :: decode_escapes_caldone rest
        else 60 :: decode_escapes_caldone (d1 :: d2 :: d3 :: '>' :: rest)
      else 60 :: decode_escapes_caldone (d1 :: d2 :: d3 :: '>' :: rest)
  | c :: rest => c.toNat :: decode_escapes_caldone rest

/-- Traversal predicate mirroring the decoders' scan: it holds when every
`^h`-escape encountered along the scan parses as a byte value (no fallback
branch is ever taken). -/
def hexEscapesOk : List Char → Bool
  | [] => true
  | '^' :: 'h' :: a :: b :: rest =>
      (match hexPairByte a b with
       | some _ => hexEscapesOk rest
       | none => false)
  | '^' :: _ :: rest => hexEscapesOk rest
  | ['^'] => true
  | '<' :: d1 :: d2 :: d3 :: '>' :: rest =>
      if asciiDigit d1 && asciiDigit d2 && asciiDigit d3 then
        let v := 100 * (d1.toNat - 48) + 10 * (d2.toNat - 48) + (d3.toNat - 48)
        if 128 ≤ v ∧ v ≤ 255 then hexEscapesOk rest
        else hexEscapesOk (d1 :: d2 :: d3 :: '>' :: rest)
      else hexEscapesOk (d1 :: d2 :: d3 :: '>' :: rest)
  | _ :: rest => hexEscapesOk rest

/-- The calibration.py decoder computes the same byte sequence as the
3P3W.py decoder on every payload (the two sources are textually
identical). -/
theorem decode_escapes_out_cal_eq (p : List Char) :
    decode_escapes_out_cal p = decode_escapes_out p := by
  induction p using decode_escapes_out.induct
  all_goals simp_all [decode_escapes_out, decode_escapes_out_cal]
  all_goals split_ifs <;> simp_all
  all_goals omega

set_option maxHeartbeats 1000000 in
/-- When every `^h`-escape on the scan parses, the caldone.py decoder also
agrees with the 3P3W.py decoder. -/
theorem decode_escapes_caldone_eq (p : List Char) (h : hexEscapesOk p = true) :
    decode_escapes_caldone p = decode_escapes_out p := by
  induction p using decode_escapes_out.induct
  all_goals simp_all [decode_escapes_out, decode_escapes_caldone, hexEscapesOk]
  all_goals split_ifs <;> simp_all
  all_goals omega

set_option maxRecDepth 1000000

/-- Shared helper: for an in-range meter number the MCW builder succeeds
with the composed command string. -/
theorem build_simple_mcw_ok (meterCount : Nat) (m : Int) (raw : List Nat)
    (h1 : 0 ≤ m) (h2 : m ≤ (meterCount : Int)) :
    build_simple_mcw meterCount m raw =
      some (("MCW" ++ toString m ++ ",").data ++ bytes_to_mcw_hex raw) := by
  unfold build_simple_mcw
  rw [if_neg]
  omega

/-- C1. CRC16 golden vector: the Modbus CRC of the PDU bytes
01 10 25 80 00 02 04 44 FC E0 00 is 0x5EC0, so its bytes are appended low
byte first as C0 5E, and for any operator-chosen meter count the write
command for value 2023 at address 0x2580 to broadcast id 0 is exactly the
literal string MCW0,^h01^h10^h25^h80^h00^h02^h04^h44^hFC^hE0^h00^hC0^h5E. -/
theorem crc16_golden_vector :
    crc16_fn [0x01, 0x10, 0x25, 0x80, 0x00, 0x02, 0x04, 0x44, 0xFC, 0xE0, 0x00] = 0x5EC0 ∧
    ∀ meterCount : Nat,
      build_modbus_write_multiple_float meterCount 0 1 0x2580 [2023] =
        some "MCW0,^h01^h10^h25^h80^h00^h02^h04^h44^hFC^hE0^h00^hC0^h5E".data := by
  refine ⟨by decide, fun meterCount => ?_⟩
  rw [show build_modbus_write_multiple_float meterCount 0 1 0x2580 [2023] =
        build_simple_mcw meterCount 0
          [0x01, 0x10, 0x25, 0x80, 0x00, 0x02, 0x04, 0x44, 0xFC, 0xE0, 0x00, 0xC0, 0x5E]
      from rfl,
    build_simple_mcw_ok meterCount 0 _ (by omega) (by omega)]
  decide

/-- C2. Escape round-trip: for every byte value b in 0..255, decoding the
encoder's ^h-hex escaping with the 3P3W.py decoder reproduces exactly the
two-uppercase-hex-digit rendering of b. -/
theorem escape_roundtrip :
    ∀ b < 256, decode_escapes (bytes_to_mcw_hex [b]) = hexByteChars b := by
  decide

/-- Closed witness for the round-trip theorem at byte 0xAB. -/
theorem escape_roundtrip_witness :
    decode_escapes (bytes_to_mcw_hex [0xAB]) = hexByteChars 0xAB :=
  escape_roundtrip 0xAB (by decide)

/-- C9. Encode precondition and purity: build_simple_mcw fails (raises a
ValueError) exactly when the meter number lies outside 0..METER_COUNT, and
otherwise deterministically returns the command MCW<meter_num>, followed by
one ^hXX token per byte; the raw bytes are never inspected or rejected. -/
theorem build_simple_mcw_spec :
    ∀ (meterCount : Nat) (m : Int) (raw : List Nat),
      (build_simple_mcw meterCount m raw = none ↔ (m < 0 ∨ m > (meterCount : Int))) ∧
      (0 ≤ m → m ≤ (meterCount : Int) →
        build_simple_mcw meterCount m raw =
          some (("MCW" ++ toString m ++ ",").data ++ bytes_to_mcw_hex raw)) := by
  intro meterCount m raw
  refine ⟨?_, fun h1 h2 => build_simple_mcw_ok meterCount m raw h1 h2⟩
  unfold build_simple_mcw
  split <;> simp_all

/-- Closed witness for the encode precondition theorem: meter 3 of 20 with
one byte succeeds with the literal command, and meter 21 of 20 raises. -/
theorem build_simple_mcw_spec_witness :
    build_simple_mcw 20 3 [0xAB] = some "MCW3,^hAB".data ∧
    build_simple_mcw 20 21 [0xAB] = none := by
  constructor
  · rw [(build_simple_mcw_spec 20 3 [0xAB]).2 (by decide) (by decide)]
    decide
  · rw [(build_simple_mcw_spec 20 21 [0xAB]).1]
    decide

/-- C10 counterexample: on the payload string made of the four characters
caret, h, Z, Z — a ^h escape followed by non-hex characters — the 3P3W.py
and calibration.py decoders produce the bytes 5E 68 5A 5A while the
caldone.py decoder produces 08 5A 5A, a different byte sequence. -/
theorem decoders_disagree_on_bad_hex :
    decode_escapes_out ('^' :: 'h' :: 'Z' :: 'Z' :: []) = [0x5E, 0x68, 0x5A, 0x5A] ∧
    decode_escapes_out_cal ('^' :: 'h' :: 'Z' :: 'Z' :: []) = [0x5E, 0x68, 0x5A, 0x5A] ∧
    decode_escapes_caldone ('^' :: 'h' :: 'Z' :: 'Z' :: []) = [0x08, 0x5A, 0x5A] ∧
    ([0x08, 0x5A, 0x5A] : List Nat) ≠ [0x5E, 0x68, 0x5A, 0x5A] := by
  refine ⟨by decide, by decide, by decide, by decide⟩

/-- C10 (amended). The 3P3W.py and calibration.py escape decoders agree on
every payload (and hence so do their uppercase-hex renderings); the
caldone.py decoder agrees with them whenever every ^h token reached by the
scan is followed by two characters that parse as a hex byte, but may
diverge otherwise. -/
theorem decode_escapes_three_copies :
    ∀ p : List Char,
      (decode_escapes_out_cal p = decode_escapes_out p ∧
       decode_escapes_cal p = decode_escapes p) ∧
      (hexEscapesOk p = true → decode_escapes_caldone p = decode_escapes_out p) := by
  intro p
  exact ⟨⟨decode_escapes_out_cal_eq p,
          by unfold decode_escapes decode_escapes_cal; rw [decode_escapes_out_cal_eq]⟩,
         fun h => decode_escapes_caldone_eq p h⟩

/-- Closed witness for the three-decoder theorem at the payload ^h41. -/
theorem decode_escapes_three_copies_witness :
    decode_escapes_caldone ('^' :: 'h' :: '4' :: '1' :: []) =
      decode_escapes_out ('^' :: 'h' :: '4' :: '1' :: []) :=
  (decode_escapes_three_copies ('^' :: 'h' :: '4' :: '1' :: [])).2 (by decide)

/-! ## Response segmentation (3P3W.py `split_segments`,
`extract_meter_and_payload`; calibration.py `extract_meter_and_payload`) -/

/-- Latin-1 decoding of a byte buffer: each byte becomes the character with
the same code point (`raw.decode("latin1")`, which cannot fail). -/
def latin1Decode (raw : List Nat) : List Char :=
  raw.map Char.ofNat

/-- Python `str.strip()`: drop strippable whitespace from both ends. -/
def pyStrip (s : List Char) : List Char :=
  ((s.dropWhile pyWhite).reverse.dropWhile pyWhite).reverse

/-- 3P3W.py `split_segments`: decode as latin-1, strip the whole buffer,
split on carriage return, and keep only the segments that are non-empty
after stripping (kept segments themselves stay unstripped). -/
def split_segments (raw : List Nat) : List (List Char) :=
  ((pyStrip (latin1Decode raw)).splitOn '\r').filter (fun seg => !(pyStrip seg).isEmpty)

/-- Integer value of an ASCII digit string (`int(m.group(1))`). -/
def natOfDigits (ds : List Char) : Nat :=
  ds.foldl (fun n c => 10 * n + (c.toNat - 48)) 0

/-- 3P3W.py `extract_meter_and_payload`: match the anchored regular
expression F(digits),lazy-gap,(rest) — digits then a comma, then the
shortest run without comma or newline up to a second comma, then everything
up to the end of line as the payload; anything else yields no value. -/
def extract_meter_and_payload (seg : List Char) : Option (Nat × List Char) :=
  match seg with
  | 'F' :: rest =>
      let ds := rest.takeWhile asciiDigit
      let rest2 := rest.dropWhile asciiDigit
      if ds.isEmpty then none
      else
        match rest2 with
        | ',' :: rest3 =>
            let middle := rest3.takeWhile (fun c => !(c == ',') && !(c == '\n'))
            (match rest3.drop middle.length with
             | ',' :: rest5 => some (natOfDigits ds, rest5.takeWhile (fun c => !(c == '\n')))
             | _ => none)
        | _ => none
  | _ => none

/-- A word character for the regex class on latin-1 input: ASCII
alphanumerics and underscore plus the latin-1 alphanumeric code points
(ordinal indicators, micro sign, superscripts, vulgar fractions, and the
accented letters other than the multiplication and division signs). -/
def pyWordChar (c : Char) : Bool :=
  asciiDigit c || ('A' ≤ c && c ≤ 'Z') || ('a' ≤ c && c ≤ 'z') || c = '_' ||
  c = '\xaa' || c = '\xb5' || c = '\xb9' || c = '\xb2' || c = '\xb3' || c = '\xba' ||
  c = '\xbc' || c = '\xbd' || c = '\xbe' ||
  (('\xc0' ≤ c && c ≤ '\xff') && !(c = '\xd7') && !(c = '\xf7'))

/-- calibration.py `extract_meter_and_payload`: segments starting with MCW
are echoes and yield no value; otherwise the anchored regular expression is
F(digits),optional-MC-word,(rest) — the field between the two commas must
be empty or the literal MC followed by at least one word character. -/
def extract_meter_and_payload_cal (seg : List Char) : Option (Nat × List Char) :=
  if seg.take 3 = ['M', 'C', 'W'] then none
  else
    match seg with
    | 'F' :: rest =>
        let ds := rest.takeWhile asciiDigit
        let rest2 := rest.dropWhile asciiDigit
        if ds.isEmpty then none
        else
          match rest2 with
          | ',' :: rest3 =>
              (match rest3 with
               | 'M' :: 'C' :: rest4 =>
                   let w := rest4.takeWhile pyWordChar
                   if w.isEmpty then none
                   else
                     (match rest4.drop w.length with
                      | ',' :: rest6 => some (natOfDigits ds, rest6.takeWhile (fun c => !(c == '\n')))
                      | _ => none)
               | ',' :: rest6 => some (natOfDigits ds, rest6.takeWhile (fun c => !(c == '\n')))
               | _ => none)
          | _ => none
    | _ => none

/-! ## Poll-with-elimination (3P3W.py `poll_ready_all_localpairs`) -/

/-- The fixed ready sentinel 3P3W.py looks for in decoded payloads. -/
def READY_RESPONSE : List Char := "01030440000000EFF3".data

/-- Whether the needle occurs starting at the head of the haystack. -/
def subSeqAt : List Char → List Char → Bool
  | [], _ => true
  | _ :: _, [] => false
  | a :: as, b :: bs => a == b && subSeqAt as bs

/-- Python substring containment: the needle occurs contiguously somewhere
in the haystack. -/
def containsSub (needle : List Char) : List Char → Bool
  | [] => subSeqAt needle []
  | c :: rest => subSeqAt needle (c :: rest) || containsSub needle rest

/-- The decoded text 3P3W.py `send_and_log` returns for one raw reply:
split into segments, extract the meter id and payload of each, keep those
with a truthy id (nonzero) and non-empty payload, decode their escapes, and
join the resulting hex strings. -/
def send_and_log_decoded (raw : List Nat) : List Char :=
  ((split_segments raw).filterMap (fun seg =>
      match extract_meter_and_payload seg with
      | some (mid, payload) =>
          if mid != 0 && !payload.isEmpty then some (decode_escapes payload) else none
      | none => none)).flatten

/-- Whether the reply the transport gives to polling local meter
`local_id` in round `r` contains the ready sentinel. The transport
behavior `resp` maps (round, local id) to the raw reply bytes. -/
def readyAt (resp : Nat → Nat → List Nat) (r local_id : Nat) : Bool :=
  containsSub READY_RESPONSE (send_and_log_decoded (resp r local_id))

/-- Insertion into the Python dict comprehension that seeds `pending`:
an existing local key keeps its position but its global value is
overwritten; a new local key is appended. -/
def dictInsert (acc : List (Nat × Nat)) (l g : Nat) : List (Nat × Nat) :=
  if (acc.map Prod.fst).contains l then
    acc.map (fun p => if p.1 = l then (l, g) else p)
  else acc ++ [(l, g)]

/-- The initial `pending` association list (local id to global id), built
from the caller's (global, local) pairs exactly as the dict comprehension
in `poll_ready_all_localpairs` does. -/
def buildPending (pairs : List (Nat × Nat)) : List (Nat × Nat) :=
  pairs.foldl (fun acc p => dictInsert acc p.2 p.1) []

/-- One polling round over the pending list (the `for` body of
`poll_ready_all_localpairs`): every pending local id is polled once; a
reply containing the sentinel removes the pair at once, any other reply
keeps it and sleeps one second. Returns the surviving pending list and the
time (tenths of seconds) the round provably consumed: the per-meter
transport time `extra` plus 10 per still-busy meter. -/
def pollRound (resp : Nat → Nat → List Nat) (extra : Nat → Nat → Nat) (r : Nat) :
    List (Nat × Nat) → List (Nat × Nat) × Nat
  | [] => ([], 0)
  | (local_id, g) :: rest =>
      let t := pollRound resp extra r rest
      if readyAt resp r local_id then (t.1, extra r local_id + t.2)
      else ((local_id, g) :: t.1, extra r local_id + 10 + t.2)

/-- The `while pending:` loop of `poll_ready_all_localpairs`, with
explicitly threaded fuel: the loop exits with the (possibly empty) pending
remainder and the number of executed rounds either when pending empties or
when the elapsed time exceeds the total timeout; `none` means the fuel ran
out before either exit (never happens with enough fuel, proved below).
Times are in tenths of seconds: the round delay and the total timeout are
passed in, and the elapsed clock advances by at least the sleeps the code
performs. -/
def pollLoop (resp : Nat → Nat → List Nat) (extra : Nat → Nat → Nat)
    (delay total : Nat) :
    Nat → List (Nat × Nat) → Nat → Nat → Option (List (Nat × Nat) × Nat)
  | 0, _, _, _ => none
  | fuel + 1, pending, elapsed, r =>
      if pending.isEmpty then some ([], r)
      else if total < elapsed then some (pending, r)
      else
        let s := pollRound resp extra r pending
        pollLoop resp extra delay total fuel s.1
          (elapsed + s.2 + (if s.1.isEmpty then 0 else delay)) (r + 1)

/-- 3P3W.py `poll_ready_all_localpairs` with its default timing parameters
(delay 1.2s, phases 30s and 40s): returns the global meter ids that never
reported ready (the problematic set, in pending order) together with the
number of polling rounds executed. -/
def poll_ready_all_localpairs (resp : Nat → Nat → List Nat)
    (extra : Nat → Nat → Nat) (pairs : List (Nat × Nat)) :
    Option (List Nat × Nat) :=
  match pollLoop resp extra 12 (300 + 400) 1000 (buildPending pairs) 0 0 with
  | some (fin, n) => some (fin.map Prod.snd, n)
  | none => none

/-- Shared helper: takeWhile over an append whose left part satisfies the
predicate and whose right part starts with a failing element. -/
theorem takeWhile_append_sat {p : Char → Bool} {xs ys : List Char} {y : Char}
    (hx : ∀ c ∈ xs, p c = true) (hy : p y = false) :
    (xs ++ y :: ys).takeWhile p = xs := by
  induction xs with
  | nil => simp [List.takeWhile, hy]
  | cons a as ih =>
      have ha : p a = true := hx a (by simp)
      simp only [List.cons_append, List.takeWhile_cons, ha]
      simp only [List.mem_cons] at hx
      rw [ih (fun c hc => hx c (Or.inr hc))]
      simp

/-- Shared helper: dropWhile over the same shape of append. -/
theorem dropWhile_append_sat {p : Char → Bool} {xs ys : List Char} {y : Char}
    (hx : ∀ c ∈ xs, p c = true) (hy : p y = false) :
    (xs ++ y :: ys).dropWhile p = y :: ys := by
  induction xs with
  | nil => simp [List.dropWhile, hy]
  | cons a as ih =>
      have ha : p a = true := hx a (by simp)
      simp only [List.cons_append, List.dropWhile_cons, ha]
      simp only [List.mem_cons] at hx
      exact ih (fun c hc => hx c (Or.inr hc))

/-- Shared helper: takeWhile of a list all of whose elements satisfy the
predicate is the whole list. -/
theorem takeWhile_all {p : Char → Bool} {xs : List Char}
    (hx : ∀ c ∈ xs, p c = true) : xs.takeWhile p = xs := by
  induction xs with
  | nil => rfl
  | cons a as ih =>
      have ha : p a = true := hx a (by simp)
      simp only [List.takeWhile_cons, ha]
      simp only [List.mem_cons] at hx
      rw [ih (fun c hc => hx c (Or.inr hc))]
      simp

/-- C8 counterexample: the segment F1,X,AB has the form
F(digits),(anything),(rest), yet calibration.py's extractor discards it
(its middle field must be empty or MC followed by word characters), while
3P3W.py's extractor yields (1, AB); and the whitespace-only (but non-empty)
middle segment of the buffer A CR space CR B is discarded by the splitter,
which therefore discards more than exactly the empty segments. -/
theorem segment_extraction_counterexample :
    extract_meter_and_payload_cal ('F' :: '1' :: ',' :: 'X' :: ',' :: 'A' :: 'B' :: []) = none ∧
    extract_meter_and_payload ('F' :: '1' :: ',' :: 'X' :: ',' :: 'A' :: 'B' :: []) =
      some (1, ['A', 'B']) ∧
    split_segments [65, 13, 32, 13, 66] = [['A'], ['B']] := by
  refine ⟨by decide, by decide, by decide⟩

/-- C8 (amended). Response segmentation and filtering: decoding treats each
byte as one character, strips the whole buffer, splits on carriage return
and keeps exactly the segments that are non-empty after stripping;
command-echo segments beginning with MCW are discarded by both extractors;
for segments of the form F(digits),(gap),(rest) the 3P3W.py extractor
yields the digits as integer and the rest (up to end of line), while the
calibration.py extractor does so only when the field between the commas is
empty or MC followed by word characters. -/
theorem response_segmentation_spec :
    (∀ raw : List Nat, ∀ seg ∈ split_segments raw,
        seg ∈ (pyStrip (latin1Decode raw)).splitOn '\r' ∧ pyStrip seg ≠ []) ∧
    (∀ seg : List Char,
        extract_meter_and_payload ('M' :: 'C' :: 'W' :: seg) = none ∧
        extract_meter_and_payload_cal ('M' :: 'C' :: 'W' :: seg) = none) ∧
    (∀ ds mid rest : List Char,
        ds ≠ [] → (∀ c ∈ ds, asciiDigit c = true) →
        (∀ c ∈ mid, (!(c == ',') && !(c == '\n')) = true) →
        (∀ c ∈ rest, (!(c == '\n')) = true) →
        extract_meter_and_payload ('F' :: (ds ++ ',' :: (mid ++ ',' :: rest))) =
          some (natOfDigits ds, rest)) ∧
    (∀ ds rest : List Char,
        ds ≠ [] → (∀ c ∈ ds, asciiDigit c = true) →
        (∀ c ∈ rest, (!(c == '\n')) = true) →
        extract_meter_and_payload_cal ('F' :: (ds ++ ',' :: ',' :: rest)) =
          some (natOfDigits ds, rest) ∧
        ∀ w : List Char, w ≠ [] → (∀ c ∈ w, pyWordChar c = true) →
          extract_meter_and_payload_cal ('F' :: (ds ++ ',' :: 'M' :: 'C' :: (w ++ ',' :: rest))) =
            some (natOfDigits ds, rest)) := by
  refine ⟨?_, ?_, ?_, ?_⟩
  · intro raw seg h
    rw [split_segments, List.mem_filter] at h
    refine ⟨h.1, ?_⟩
    have := h.2
    simpa [List.isEmpty_iff] using this
  · intro seg
    exact ⟨rfl, rfl⟩
  · intro ds mid rest hne hds hmid hrest
    have h1 : (ds ++ ',' :: (mid ++ ',' :: rest)).takeWhile asciiDigit = ds :=
      takeWhile_append_sat hds (by decide)
    have h2 : (ds ++ ',' :: (mid ++ ',' :: rest)).dropWhile asciiDigit =
        ',' :: (mid ++ ',' :: rest) :=
      dropWhile_append_sat hds (by decide)
    have h3 : (mid ++ ',' :: rest).takeWhile (fun c => !(c == ',') && !(c == '\n')) = mid :=
      takeWhile_append_sat hmid (by decide)
    have h4 : (mid ++ ',' :: rest).drop mid.length = ',' :: rest := by
      simp
    have h5 : rest.takeWhile (fun c => !(c == '\n')) = rest := takeWhile_all hrest
    simp only [extract_meter_and_payload, h1, h2, h3, h4, h5]
    simp [hne]
  · intro ds rest hne hds hrest
    have h1 : (ds ++ ',' :: ',' :: rest).takeWhile asciiDigit = ds :=
      takeWhile_append_sat hds (by decide)
    have h2 : (ds ++ ',' :: ',' :: rest).dropWhile asciiDigit = ',' :: ',' :: rest :=
      dropWhile_append_sat hds (by decide)
    have h5 : rest.takeWhile (fun c => !(c == '\n')) = rest := takeWhile_all hrest
    constructor
    · simp only [extract_meter_and_payload_cal, h1, h2, h5]
      simp [hne]
    · intro w hwne hw
      have h1' : (ds ++ ',' :: 'M' :: 'C' :: (w ++ ',' :: rest)).takeWhile asciiDigit = ds :=
        takeWhile_append_sat hds (by decide)
      have h2' : (ds ++ ',' :: 'M' :: 'C' :: (w ++ ',' :: rest)).dropWhile asciiDigit =
          ',' :: 'M' :: 'C' :: (w ++ ',' :: rest) :=
        dropWhile_append_sat hds (by decide)
      have h3' : (w ++ ',' :: rest).takeWhile pyWordChar = w :=
        takeWhile_append_sat hw (by decide)
      have h4' : (w ++ ',' :: rest).drop w.length = ',' :: rest := by
        simp
      simp only [extract_meter_and_payload_cal, h1', h2', h3', h4', h5]
      simp [hne, hwne]

/-- Closed witness for the segmentation theorem, applied to the segment
F12,MCW3,41 and its building blocks. -/
theorem response_segmentation_spec_witness :
    extract_meter_and_payload ('F' :: (['1', '2'] ++ ',' :: (['M', 'C', 'W', '3'] ++ ',' :: ['4', '1']))) =
      some (natOfDigits ['1', '2'], ['4', '1']) ∧
    extract_meter_and_payload_cal ('F' :: (['1', '2'] ++ ',' :: 'M' :: 'C' :: (['W', '3'] ++ ',' :: ['4', '1']))) =
      some (natOfDigits ['1', '2'], ['4', '1']) := by
  constructor
  · exact response_segmentation_spec.2.2.1 ['1', '2'] ['M', 'C', 'W', '3'] ['4', '1']
      (by decide) (by decide) (by decide) (by decide)
  · exact (response_segmentation_spec.2.2.2 ['1', '2'] ['4', '1']
      (by decide) (by decide) (by decide)).2 ['W', '3'] (by decide) (by decide)

/-- A pair survives one polling round exactly when it was pending and its
reply in that round did not contain the ready sentinel (so a ready meter is
removed within the same round it reports ready). -/
theorem pollRound_mem (resp : Nat → Nat → List Nat) (extra : Nat → Nat → Nat)
    (r : Nat) (pending : List (Nat × Nat)) (p : Nat × Nat) :
    p ∈ (pollRound resp extra r pending).1 ↔
      p ∈ pending ∧ readyAt resp r p.1 = false := by
  induction pending with
  | nil => simp [pollRound]
  | cons q rest ih =>
      obtain ⟨l, g⟩ := q
      cases hcase : readyAt resp r l with
      | true =>
          simp only [pollRound, hcase, if_pos, List.mem_cons]
          rw [ih]
          constructor
          · rintro ⟨hp, hready⟩; exact ⟨Or.inr hp, hready⟩
          · rintro ⟨(rfl | hp), hready⟩
            · rw [hcase] at hready; exact absurd hready (by simp)
            · exact ⟨hp, hready⟩
      | false =>
          simp only [pollRound, hcase, Bool.false_eq_true, if_false, List.mem_cons]
          rw [ih]
          constructor
          · rintro (rfl | ⟨hp, hready⟩)
            · exact ⟨Or.inl rfl, hcase⟩
            · exact ⟨Or.inr hp, hready⟩
          · rintro ⟨(rfl | hp), hready⟩
            · exact Or.inl rfl
            · exact Or.inr ⟨hp, hready⟩

/-- The polling loop always reaches one of its two exits when given enough
fuel: the pending set is empty, or the elapsed clock (which grows by at
least the round delay per iteration) exceeds the total timeout. -/
theorem pollLoop_total (resp : Nat → Nat → List Nat) (extra : Nat → Nat → Nat)
    (delay total : Nat) :
    ∀ (f : Nat) (pending : List (Nat × Nat)) (elapsed r : Nat),
      (pending = [] ∨ total < elapsed + delay * f) →
      (pollLoop resp extra delay total (f + 1) pending elapsed r).isSome = true := by
  intro f
  induction f with
  | zero =>
      intro pending elapsed r h
      rcases h with rfl | h
      · simp [pollLoop]
      · rw [pollLoop]
        by_cases hp : pending.isEmpty = true
        · simp [hp]
        · rw [if_neg (by simp [hp]), if_pos (by omega)]
          simp
  | succ f ih =>
      intro pending elapsed r h
      rcases h with rfl | h
      · simp [pollLoop]
      · rw [pollLoop]
        by_cases hp : pending.isEmpty = true
        · simp [hp]
        · rw [if_neg (by simp [hp])]
          by_cases ht : total < elapsed
          · rw [if_pos ht]; simp
          · rw [if_neg ht]
            by_cases hs : (pollRound resp extra r pending).1.isEmpty = true
            · exact ih _ _ _ (Or.inl (List.isEmpty_iff.mp hs))
            · rw [Nat.mul_succ] at h
              refine ih _ _ _ (Or.inr ?_)
              rw [if_neg (by simp [hs])]
              omega

/-- Characterization of the polling loop's result: it reports the number of
executed rounds, and a pair ends in the final pending remainder exactly
when it was initially pending and none of the executed rounds returned the
ready sentinel for its local id. -/
theorem pollLoop_spec (resp : Nat → Nat → List Nat) (extra : Nat → Nat → Nat)
    (delay total : Nat) :
    ∀ (fuel : Nat) (pending : List (Nat × Nat)) (elapsed r : Nat)
      (fin : List (Nat × Nat)) (n : Nat),
      pollLoop resp extra delay total fuel pending elapsed r = some (fin, n) →
      r ≤ n ∧
      ∀ p : Nat × Nat, p ∈ fin ↔
        p ∈ pending ∧ ∀ r', r ≤ r' → r' < n → readyAt resp r' p.1 = false := by
  intro fuel
  induction fuel with
  | zero =>
      intro pending elapsed r fin n h
      simp [pollLoop] at h
  | succ f ih =>
      intro pending elapsed r fin n h
      rw [pollLoop] at h
      by_cases hp : pending.isEmpty = true
      · rw [if_pos hp] at h
        simp only [Option.some.injEq, Prod.mk.injEq] at h
        obtain ⟨rfl, rfl⟩ := h
        rw [List.isEmpty_iff] at hp
        subst hp
        simp
      · rw [if_neg (by simp [hp])] at h
        by_cases ht : total < elapsed
        · rw [if_pos ht] at h
          simp only [Option.some.injEq, Prod.mk.injEq] at h
          obtain ⟨rfl, rfl⟩ := h
          refine ⟨le_refl r, fun p => ?_⟩
          constructor
          · intro hpf
            exact ⟨hpf, fun r' h1 h2 => absurd h2 (by omega)⟩
          · exact fun hp' => hp'.1
        · rw [if_neg ht] at h
          obtain ⟨hrn, hmem⟩ := ih _ _ _ _ _ h
          refine ⟨by omega, fun p => ?_⟩
          rw [hmem p, pollRound_mem]
          constructor
          · rintro ⟨⟨hp1, hready⟩, hall⟩
            refine ⟨hp1, fun r' h1 h2 => ?_⟩
            rcases Nat.eq_or_lt_of_le h1 with rfl | hlt
            · exact hready
            · exact hall r' (by omega) h2
          · rintro ⟨hp1, hall⟩
            exact ⟨⟨hp1, hall r (le_refl r) (by omega)⟩,
                   fun r' h1 h2 => hall r' (by omega) h2⟩

/-- With a transport that never returns the sentinel, one round leaves the
pending list untouched. -/
theorem pollRound_never (resp : Nat → Nat → List Nat) (extra : Nat → Nat → Nat)
    (r : Nat) (pending : List (Nat × Nat))
    (h : ∀ l, readyAt resp r l = false) :
    (pollRound resp extra r pending).1 = pending := by
  induction pending with
  | nil => rfl
  | cons q rest ih =>
      obtain ⟨l, g⟩ := q
      simp [pollRound, h l, ih]

/-- With a transport that never returns the sentinel, the loop's final
pending remainder equals the initial pending list. -/
theorem pollLoop_never (resp : Nat → Nat → List Nat) (extra : Nat → Nat → Nat)
    (delay total : Nat) (h : ∀ r l, readyAt resp r l = false) :
    ∀ (fuel : Nat) (pending : List (Nat × Nat)) (elapsed r : Nat)
      (fin : List (Nat × Nat)) (n : Nat),
      pollLoop resp extra delay total fuel pending elapsed r = some (fin, n) →
      fin = pending := by
  intro fuel
  induction fuel with
  | zero =>
      intro pending elapsed r fin n hh
      simp [pollLoop] at hh
  | succ f ih =>
      intro pending elapsed r fin n hh
      rw [pollLoop] at hh
      by_cases hp : pending.isEmpty = true
      · rw [if_pos hp] at hh
        simp only [Option.some.injEq, Prod.mk.injEq] at hh
        rw [List.isEmpty_iff] at hp
        rw [← hh.1, hp]
      · rw [if_neg (by simp [hp])] at hh
        by_cases ht : total < elapsed
        · rw [if_pos ht] at hh
          simp only [Option.some.injEq, Prod.mk.injEq] at hh
          exact hh.1.symm
        · rw [if_neg ht] at hh
          have := ih _ _ _ _ _ hh
          rw [this, pollRound_never _ _ _ _ (h r)]

/-- When the local ids of the input pairs are pairwise distinct, the dict
comprehension seeding `pending` is just the list of pairs with the
components swapped, in input order. -/
theorem buildPending_aux (pairs : List (Nat × Nat)) :
    ∀ acc : List (Nat × Nat),
      (∀ l ∈ acc.map Prod.fst, l ∉ pairs.map Prod.snd) →
      (pairs.map Prod.snd).Nodup →
      pairs.foldl (fun acc p => dictInsert acc p.2 p.1) acc =
        acc ++ pairs.map (fun p => (p.2, p.1)) := by
  induction pairs with
  | nil => intro acc _ _; simp
  | cons q rest ih =>
      obtain ⟨g, l⟩ := q
      intro acc hdisj hnd
      simp only [List.map_cons, List.nodup_cons] at hnd
      simp only [List.foldl_cons]
      have hni : ((acc.map Prod.fst).contains l) = false := by
        by_contra hc
        rw [Bool.not_eq_false] at hc
        have hc' : l ∈ acc.map Prod.fst := by simpa [List.contains] using hc
        exact hdisj l hc' (by simp)
      have hd2 : ∀ l' ∈ (acc ++ [(l, g)]).map Prod.fst, l' ∉ rest.map Prod.snd := by
        intro l' hl'
        simp only [List.map_append, List.mem_append, List.map_cons, List.map_nil,
          List.mem_singleton] at hl'
        rcases hl' with hmem | hl'
        · exact fun hr => hdisj l' hmem (by simp [hr])
        · subst hl'
          exact hnd.1
      rw [show dictInsert acc l g = acc ++ [(l, g)] from by rw [dictInsert, hni]; simp]
      rw [ih (acc ++ [(l, g)]) hd2 hnd.2]
      simp

/-- The seeded pending list for distinct local ids. -/
theorem buildPending_eq (pairs : List (Nat × Nat))
    (h : (pairs.map Prod.snd).Nodup) :
    buildPending pairs = pairs.map (fun p => (p.2, p.1)) := by
  have := buildPending_aux pairs [] (by simp) h
  simpa [buildPending] using this

/-- Membership in the swapped pair list. -/
theorem mem_map_swap (p : Nat × Nat) (pairs : List (Nat × Nat)) :
    p ∈ pairs.map (fun q => (q.2, q.1)) ↔ (p.2, p.1) ∈ pairs := by
  rw [List.mem_map]
  constructor
  · rintro ⟨q, hq, rfl⟩; simpa using hq
  · intro hp; exact ⟨(p.2, p.1), hp, by simp⟩

/-- C3 counterexample: the claim quantifies over every input list of
(global, local) pairs, but the dict comprehension seeding `pending`
collapses duplicate local ids (the last pair wins). For the input
[(1, 1), (2, 1)] and a transport that never returns the sentinel, the
function returns only global 2 after 32 rounds: global 1 was never polled,
never reported ready, yet is not in the returned set — the claim demands
all input GlobalMeterIds. -/
theorem poll_duplicate_locals_counterexample :
    poll_ready_all_localpairs (fun _ _ => []) (fun _ _ => 0) [(1, 1), (2, 1)] =
      some ([2], 32) ∧ (1 : Nat) ∉ ([2] : List Nat) := by
  constructor
  · decide
  · decide

/-- C3 (amended). Poll-with-elimination contract for input pair lists with
pairwise distinct local ids: for every transport behavior (reply contents
and timing), the loop terminates — it ends either when pending becomes
empty or when the elapsed clock exceeds the 30s+40s budget — returning the
final pending remainder after some number n of rounds; a pair is in that
remainder exactly when it was an input pair none of whose polled reads
decoded to a payload containing the ready sentinel; the returned problematic
set is exactly the global ids of such meters; a meter whose decoded reply
contains the sentinel is removed from pending within that same round; and
with a transport that never returns the sentinel all input global ids are
returned. -/
theorem poll_ready_all_localpairs_spec (resp : Nat → Nat → List Nat)
    (extra : Nat → Nat → Nat) (pairs : List (Nat × Nat))
    (h : (pairs.map Prod.snd).Nodup) :
    ∃ (fin : List (Nat × Nat)) (n : Nat),
      pollLoop resp extra 12 (300 + 400) 1000 (buildPending pairs) 0 0 = some (fin, n) ∧
      poll_ready_all_localpairs resp extra pairs = some (fin.map Prod.snd, n) ∧
      (∀ p : Nat × Nat, p ∈ fin ↔
        (p.2, p.1) ∈ pairs ∧ ∀ r < n, readyAt resp r p.1 = false) ∧
      (∀ g : Nat, g ∈ fin.map Prod.snd ↔
        ∃ l, (g, l) ∈ pairs ∧ ∀ r < n, readyAt resp r l = false) ∧
      (∀ (r : Nat) (pending : List (Nat × Nat)) (p : Nat × Nat),
        p ∈ pending → readyAt resp r p.1 = true →
          p ∉ (pollRound resp extra r pending).1) ∧
      ((∀ r l, readyAt resp r l = false) → fin.map Prod.snd = pairs.map Prod.fst) := by
  have htot := pollLoop_total resp extra 12 (300 + 400) 999 (buildPending pairs) 0 0
    (Or.inr (by omega))
  obtain ⟨⟨fin, n⟩, hfin⟩ := Option.isSome_iff_exists.mp htot
  obtain ⟨-, hmem⟩ := pollLoop_spec resp extra 12 (300 + 400) 1000
    (buildPending pairs) 0 0 fin n hfin
  have hchar : ∀ p : Nat × Nat, p ∈ fin ↔
      (p.2, p.1) ∈ pairs ∧ ∀ r < n, readyAt resp r p.1 = false := by
    intro p
    rw [hmem p, buildPending_eq pairs h, mem_map_swap]
    constructor
    · rintro ⟨h1, h2⟩; exact ⟨h1, fun r hr => h2 r (by omega) hr⟩
    · rintro ⟨h1, h2⟩; exact ⟨h1, fun r _ hr => h2 r hr⟩
  refine ⟨fin, n, hfin, ?_, hchar, ?_, ?_, ?_⟩
  · rw [poll_ready_all_localpairs, hfin]
  · intro g
    rw [List.mem_map]
    constructor
    · rintro ⟨p, hp, rfl⟩
      obtain ⟨h1, h2⟩ := (hchar p).mp hp
      exact ⟨p.1, h1, h2⟩
    · rintro ⟨l, h1, h2⟩
      exact ⟨(l, g), (hchar (l, g)).mpr ⟨h1, h2⟩, rfl⟩
  · intro r pending p hp hr
    rw [pollRound_mem]
    rintro ⟨-, hf⟩
    rw [hr] at hf
    exact absurd hf (by simp)
  · intro hnone
    have hfp : fin = buildPending pairs :=
      pollLoop_never resp extra 12 (300 + 400) hnone 1000 _ 0 0 fin n hfin
    rw [hfp, buildPending_eq pairs h, List.map_map]
    rfl

/-- Closed witness for the poll contract: the single pair (global 7,
local 3) with a transport that always replies with empty bytes. -/
theorem poll_ready_all_localpairs_spec_witness :
    ∃ (fin : List (Nat × Nat)) (n : Nat),
      pollLoop (fun _ _ => []) (fun _ _ => 0) 12 (300 + 400) 1000
        (buildPending [(7, 3)]) 0 0 = some (fin, n) ∧
      poll_ready_all_localpairs (fun _ _ => []) (fun _ _ => 0) [(7, 3)] =
        some (fin.map Prod.snd, n) ∧
      (∀ p : Nat × Nat, p ∈ fin ↔
        (p.2, p.1) ∈ [(7, 3)] ∧ ∀ r < n, readyAt (fun _ _ => []) r p.1 = false) ∧
      (∀ g : Nat, g ∈ fin.map Prod.snd ↔
        ∃ l, (g, l) ∈ [(7, 3)] ∧ ∀ r < n, readyAt (fun _ _ => []) r l = false) ∧
      (∀ (r : Nat) (pending : List (Nat × Nat)) (p : Nat × Nat),
        p ∈ pending → readyAt (fun _ _ => []) r p.1 = true →
          p ∉ (pollRound (fun _ _ => []) (fun _ _ => 0) r pending).1) ∧
      ((∀ r l, readyAt (fun _ _ => []) r l = false) →
        fin.map Prod.snd = ([(7, 3)] : List (Nat × Nat)).map Prod.fst) :=
  poll_ready_all_localpairs_spec (fun _ _ => []) (fun _ _ => 0) [(7, 3)] (by decide)

/-! ## Orchestrator (3P3W.py): steps, groups, sockets, progress -/

/-- 3P3W.py constants: the calibration code register, the cal-done status
register, and the fixed Modbus slave id. -/
def ADDR_9601 : Nat := 0x2580

/-- The cal-done status register address. -/
def REG_CAL_DONE : Nat := 0x17B8

/-- The fixed Modbus slave id used for every command. -/
def SLAVE_ID : Nat := 1

/-- Number of meters per socket: config.py defines no METERS_PER_SOCKET, so
the getattr default of 10 applies. -/
def METERS_PER_SOCKET : Nat := 10

/-- One calibration step of the STEPS table. -/
structure CalStep where
  desc : String
  code : Option Int
  wait : Nat
  input_change : Bool
  busy_poll : Bool
  deriving DecidableEq, Repr

/-- The STEPS table of 3P3W.py (the two commented-out entries excluded, as
in the source). -/
def STEPS : List CalStep :=
  [⟨"Change Connection per 3P3W", none, 0, false, false⟩,
   ⟨"Turn ON Calmet - Input Step 1", none, 0, false, false⟩,
   ⟨"Unlock Calibration", some 2023, 0, false, false⟩,
   ⟨"Import Energy Quantization", some 904, 1, false, true⟩,
   ⟨"Apply Input Step 2", none, 0, false, false⟩,
   ⟨"Export Energy Quantization", some 905, 1, false, true⟩,
   ⟨"Apply Input Step 3", none, 0, false, false⟩,
   ⟨"Import Current Quantization", some 906, 1, false, true⟩,
   ⟨"Apply Input Step 4", none, 0, false, false⟩,
   ⟨"Export Current Quantization", some 907, 1, false, true⟩,
   ⟨"Export Voltage Quantization", some 908, 1, false, true⟩,
   ⟨"Save Coefficient in EEPROM", some 909, 2, false, false⟩]

/-- The CAL_GROUPS slices of 3P3W.py: STEPS[0:4], STEPS[4:6], STEPS[6:8],
STEPS[8:12]. -/
def CAL_GROUPS : List (List CalStep) :=
  [(STEPS.drop 0).take 4, (STEPS.drop 4).take 2, (STEPS.drop 6).take 2, (STEPS.drop 8).take 4]

/-- 3P3W.py `meters_for_socket_index`: global meter numbers of the 0-based
socket index — the contiguous block of width METERS_PER_SOCKET clipped to
the configured total. -/
def meters_for_socket_index (total idx : Nat) : List Nat :=
  let start := idx * METERS_PER_SOCKET + 1
  let e := min total (start + METERS_PER_SOCKET - 1)
  if e < start then [] else List.range' start (e + 1 - start)

/-- Observable events of one orchestrator run: transport lifecycle, sends,
step boundaries, operator prompts, durable-state writes, and socket skips. -/
inductive Ev where
  | openT (ip : String) (port : Nat)
  | closeT (ip : String) (port : Nat)
  | send (cmd : Option (List Char))
  | stepStart (desc : String)
  | prompt
  | saveProblematic (probs : List Nat)
  | saveProgress
  | skipSocket (ip : String) (port : Nat)
  deriving DecidableEq, Repr

/-- Set union implemented on lists (Python `set.update`): append the
elements of the second operand that are not yet present. -/
def listUnion (xs ys : List Nat) : List Nat :=
  ys.foldl (fun s g => if s.contains g then s else s ++ [g]) xs

/-- Insertion into a sorted list. -/
def insertSorted (x : Nat) : List Nat → List Nat
  | [] => [x]
  | y :: ys => if x ≤ y then x :: y :: ys else y :: insertSorted x ys

/-- `sorted(...)` of Python's `save_problematic`. -/
def sortNat (xs : List Nat) : List Nat :=
  xs.foldr insertSorted []

/-- The in-memory progress dictionary: the `current_cal_group` entry (with
its load default of 1 applied) and the set of done-keys stored as True. -/
structure Progress where
  current_cal_group : Int
  doneKeys : List String
  deriving DecidableEq, Repr

/-- The per-socket done key of run_quant_compensation_3p4w:
group_<grp>_socket_<ip with dots replaced by underscores>_<port>_done. -/
def done_key (grp : Int) (ip : String) (port : Nat) : String :=
  "group_" ++ toString grp ++ "_socket_" ++
    (ip.data.map (fun c => if c = '.' then '_' else c)).asString ++ "_" ++
    toString port ++ "_done"

/-- The MCW command `write_code_local` (and the pre-busy-poll write) sends:
a write-multiple-float of the step code to the calibration register using
the LOCAL meter id. -/
def write_code_local_cmd (mcount : Nat) (local_id : Nat) (code : Int) :
    Option (List Char) :=
  build_modbus_write_multiple_float mcount (local_id : Int) SLAVE_ID ADDR_9601 [code]

/-- The MCW command each poll sends: a read of the cal-done register pair
using the LOCAL meter id. -/
def poll_read_cmd (mcount : Nat) (local_id : Nat) : Option (List Char) :=
  build_modbus_read_cmd mcount (local_id : Int) SLAVE_ID REG_CAL_DONE 2

/-- The send events of the polling loop, mirroring pollLoop's state
evolution round for round: each executed round sends one read per still
pending local id, in pending order. -/
def pollLoopTrace (resp : Nat → Nat → List Nat) (extra : Nat → Nat → Nat)
    (mcount delay total : Nat) :
    Nat → List (Nat × Nat) → Nat → Nat → List Ev
  | 0, _, _, _ => []
  | fuel + 1, pending, elapsed, r =>
      if pending.isEmpty then []
      else if total < elapsed then []
      else
        pending.map (fun q => Ev.send (poll_read_cmd mcount q.1)) ++
        (let s := pollRound resp extra r pending
         pollLoopTrace resp extra mcount delay total fuel s.1
           (elapsed + s.2 + (if s.1.isEmpty then 0 else delay)) (r + 1))

/-- The step loop of `calibrate_group_on_socket`: runs the group's steps in
order over the active (global, local) pairs, returning the emitted events
and the accumulated newly problematic global ids. The transport behavior
is indexed by step (`resp s r l` is the raw reply to polling local `l` in
round `r` of step `s`; writes' replies are read and logged but never
inspected, so they need no oracle). -/
def run_steps (mcount : Nat) (resp : Nat → Nat → Nat → List Nat)
    (extra : Nat → Nat → Nat → Nat) :
    List CalStep → Nat → List (Nat × Nat) → List Nat → List Ev × List Nat
  | [], _, _, newProb => ([], newProb)
  | step :: rest, i, active, newProb =>
      let stepEvs := Ev.stepStart step.desc ::
        (if step.input_change then [Ev.prompt] else [])
      if step.busy_poll then
        let preEvs :=
          match step.code with
          | some c => active.map (fun p => Ev.send (write_code_local_cmd mcount p.2 c))
          | none => []
        let pollEvs := pollLoopTrace (resp i) (extra i) mcount 12 (300 + 400) 1000
          (buildPending active) 0 0
        let probHere :=
          ((poll_ready_all_localpairs (resp i) (extra i) active).map Prod.fst).getD []
        let newProb2 := if probHere.isEmpty then newProb else listUnion newProb probHere
        let active2 :=
          if probHere.isEmpty then active
          else active.filter (fun p => !(newProb2.contains p.1))
        let restOut := run_steps mcount resp extra rest (i + 1) active2 newProb2
        (stepEvs ++ preEvs ++ pollEvs ++ restOut.1, restOut.2)
      else
        let codeEvs :=
          match step.code with
          | some c => active.map (fun p => Ev.send (write_code_local_cmd mcount p.2 c))
          | none => []
        let restOut := run_steps mcount resp extra rest (i + 1) active newProb
        (stepEvs ++ codeEvs ++ restOut.1, restOut.2)

/-- 3P3W.py `calibrate_group_on_socket`: locate the socket's index in the
configured socket list, derive its global meter block, rebase to local ids
(global minus block start plus one), drop the problematic meters, and run
the group's steps; returns the events and the newly problematic globals. -/
def calibrate_group_on_socket (mcount : Nat) (resp : Nat → Nat → Nat → List Nat)
    (extra : Nat → Nat → Nat → Nat) (sockets_all : List (String × Nat))
    (ip : String) (port : Nat) (group_steps : List CalStep)
    (problematic : List Nat) : List Ev × List Nat :=
  let idx := sockets_all.indexOf (ip, port)
  let global_meter_list := meters_for_socket_index mcount idx
  if global_meter_list.isEmpty then ([], [])
  else
    let g0 := global_meter_list.headD 0
    let active_pairs :=
      (global_meter_list.filter (fun g => !(problematic.contains g))).map
        (fun g => (g, g - g0 + 1))
    if active_pairs.isEmpty then ([], [])
    else run_steps mcount resp extra group_steps 0 active_pairs []

/-- The per-socket loop of `run_quant_compensation_3p4w`: visit the
configured sockets in order; skip a socket whose done-key is already set;
otherwise open its transport, run the group, and on success persist any
newly problematic meters and then the done-flag; on an exception (the
`raises`/`failAt` oracles say whether and after how many events the step
sequence fails) leave all state untouched; always close the transport.
The transport oracles are additionally indexed by socket position. -/
def run_sockets (mcount : Nat) (resp : Nat → Nat → Nat → Nat → List Nat)
    (extra : Nat → Nat → Nat → Nat → Nat) (sockets_all : List (String × Nat))
    (group_steps : List CalStep) (grp : Int) (raises : Nat → Bool)
    (failAt : Nat → Nat) :
    List (String × Nat) → Nat → Progress → List Nat →
    Progress × List Nat × List Ev
  | [], _, progress, problematic => (progress, problematic, [])
  | (ip, port) :: rest, i, progress, problematic =>
      let key := done_key grp ip port
      if progress.doneKeys.contains key then
        let r := run_sockets mcount resp extra sockets_all group_steps grp raises failAt
          rest (i + 1) progress problematic
        (r.1, r.2.1, Ev.skipSocket ip port :: r.2.2)
      else
        let cal := calibrate_group_on_socket mcount (resp i) (extra i) sockets_all
          ip port group_steps problematic
        if raises i then
          let r := run_sockets mcount resp extra sockets_all group_steps grp raises failAt
            rest (i + 1) progress problematic
          (r.1, r.2.1,
           Ev.openT ip port :: (cal.1.take (failAt i) ++ Ev.closeT ip port :: r.2.2))
        else
          let problematic2 :=
            if cal.2.isEmpty then problematic else listUnion problematic cal.2
          let saveEvs :=
            if cal.2.isEmpty then []
            else [Ev.saveProblematic (sortNat (listUnion problematic cal.2))]
          let progress2 : Progress :=
            { progress with doneKeys := progress.doneKeys ++ [key] }
          let r := run_sockets mcount resp extra sockets_all group_steps grp raises failAt
            rest (i + 1) progress2 problematic2
          (r.1, r.2.1,
           Ev.openT ip port ::
             (cal.1 ++ saveEvs ++ Ev.saveProgress :: Ev.closeT ip port :: r.2.2))

/-- Result of one orchestrator invocation: a configuration error (raised
RuntimeError), or termination with the final progress, problematic set,
event trace, whether the bookmark advanced, and whether full completion
was reported. -/
inductive RunOutcome where
  | configError
  | finished (progress : Progress) (problematic : List Nat) (trace : List Ev)
      (advanced : Bool) (fullComplete : Bool)
  deriving DecidableEq, Repr

/-- The configuration the orchestrator reads: the operator-entered meter
count and the configured socket endpoints. -/
structure RunConfig where
  meter_count : Nat
  sockets : List (String × Nat)
  deriving DecidableEq, Repr

/-- The bookmark group actually used by a run: an out-of-range
`current_cal_group` is treated as corrupt and reset to 1. -/
def normalized_group (p : Progress) : Int :=
  if p.current_cal_group < 1 ∨ (CAL_GROUPS.length : Int) < p.current_cal_group then 1
  else p.current_cal_group

/-- 3P3W.py `run_quant_compensation_3p4w`: raise on missing sockets or
zero meter count; normalize an out-of-range bookmark to group 1 (and
persist); prompt once if the group has an input-change step; run the group
on every socket; then, if every configured socket is marked done for the
group, advance the bookmark when more groups remain or report full
completion when this was the last group; otherwise leave the bookmark. -/
def run_quant_compensation_3p4w (cfg : RunConfig)
    (resp : Nat → Nat → Nat → Nat → List Nat)
    (extra : Nat → Nat → Nat → Nat → Nat)
    (raises : Nat → Bool) (failAt : Nat → Nat)
    (progress0 : Progress) (problematic0 : List Nat) : RunOutcome :=
  if cfg.sockets.isEmpty then .configError
  else if cfg.meter_count = 0 then .configError
  else
    let cg0 := progress0.current_cal_group
    let invalid := cg0 < 1 ∨ (CAL_GROUPS.length : Int) < cg0
    let current_group : Int := normalized_group progress0
    let progress1 : Progress :=
      if invalid then { progress0 with current_cal_group := 1 } else progress0
    let resetEvs : List Ev := if invalid then [Ev.saveProgress] else []
    let group_steps := CAL_GROUPS.getD (current_group.toNat - 1) []
    let promptEvs : List Ev :=
      if group_steps.any (fun s => s.input_change) then [Ev.prompt] else []
    let out := run_sockets cfg.meter_count resp extra cfg.sockets group_steps
      current_group raises failAt cfg.sockets 0 progress1 problematic0
    let done_flags := cfg.sockets.map
      (fun sp => out.1.doneKeys.contains (done_key current_group sp.1 sp.2))
    if done_flags.all id then
      if current_group < (CAL_GROUPS.length : Int) then
        .finished { out.1 with current_cal_group := current_group + 1 } out.2.1
          (resetEvs ++ promptEvs ++ out.2.2 ++ [Ev.saveProgress]) true false
      else
        .finished out.1 out.2.1 (resetEvs ++ promptEvs ++ out.2.2) false true
    else
      .finished out.1 out.2.1 (resetEvs ++ promptEvs ++ out.2.2) false false

/-- The event trace of an outcome (empty for a configuration error). -/
def traceOf : RunOutcome → List Ev
  | .configError => []
  | .finished _ _ t _ _ => t

/-- Whether an event is a durable write of the problematic set. -/
def isSaveProb : Ev → Bool
  | .saveProblematic _ => true
  | _ => false

/-- Whether an event is the start of the step with the given description. -/
def isStepNamed (d : String) : Ev → Bool
  | .stepStart d' => d == d'
  | _ => false

/-- Any element of a dict insertion is an old element or the inserted
pair. -/
theorem dictInsert_mem {acc : List (Nat × Nat)} {l g : Nat} {q : Nat × Nat}
    (h : q ∈ dictInsert acc l g) : q ∈ acc ∨ q = (l, g) := by
  rw [dictInsert] at h
  by_cases hc : ((acc.map Prod.fst).contains l) = true
  · rw [if_pos hc] at h
    obtain ⟨p, hp, hq⟩ := List.mem_map.mp h
    by_cases hpl : p.1 = l
    · rw [if_pos hpl] at hq; exact Or.inr hq.symm
    · rw [if_neg hpl] at hq; exact Or.inl (hq ▸ hp)
  · rw [if_neg hc] at h
    rcases List.mem_append.mp h with h | h
    · exact Or.inl h
    · exact Or.inr (List.mem_singleton.mp h)

/-- Every pending pair produced by the dict comprehension comes from an
input pair (with components swapped). -/
theorem buildPending_mem_src {pairs : List (Nat × Nat)} {q : Nat × Nat}
    (h : q ∈ buildPending pairs) : (q.2, q.1) ∈ pairs := by
  suffices hgen : ∀ (ps : List (Nat × Nat)) (acc : List (Nat × Nat)),
      q ∈ ps.foldl (fun acc p => dictInsert acc p.2 p.1) acc →
      q ∈ acc ∨ (q.2, q.1) ∈ ps by
    rcases hgen pairs [] h with hq | hq
    · simp at hq
    · exact hq
  intro ps
  induction ps with
  | nil => intro acc h'; exact Or.inl h'
  | cons p rest ih =>
      intro acc h'
      rcases ih (dictInsert acc p.2 p.1) h' with hq | hq
      · rcases dictInsert_mem hq with hq | hq
        · exact Or.inl hq
        · right
          rw [hq]
          simp
      · right
        exact List.mem_cons_of_mem _ hq

/-- Every event the polling loop emits is a send of the cal-done read
command for a local id that was pending when the loop started. -/
theorem pollLoopTrace_sends (resp : Nat → Nat → List Nat)
    (extra : Nat → Nat → Nat) (mcount delay total : Nat) :
    ∀ (fuel : Nat) (pending : List (Nat × Nat)) (elapsed r : Nat) (ev : Ev),
      ev ∈ pollLoopTrace resp extra mcount delay total fuel pending elapsed r →
      ∃ q ∈ pending, ev = Ev.send (poll_read_cmd mcount q.1) := by
  intro fuel
  induction fuel with
  | zero => intro pending elapsed r ev h; simp [pollLoopTrace] at h
  | succ f ih =>
      intro pending elapsed r ev h
      rw [pollLoopTrace] at h
      by_cases hp : pending.isEmpty = true
      · rw [if_pos hp] at h; simp at h
      · rw [if_neg (by simp [hp])] at h
        by_cases ht : total < elapsed
        · rw [if_pos ht] at h; simp at h
        · rw [if_neg ht] at h
          rcases List.mem_append.mp h with h | h
          · obtain ⟨q, hq, rfl⟩ := List.mem_map.mp h
            exact ⟨q, hq, rfl⟩
          · obtain ⟨q, hq, rfl⟩ := ih _ _ _ _ h
            exact ⟨q, ((pollRound_mem resp extra r pending q).mp hq).1, rfl⟩

/-- Every event the step loop emits is a step-start marker, an operator
prompt, a code write to an active local id, or a poll read of an active
local id; in particular it is never a durable-state write. -/
theorem run_steps_events (mcount : Nat) (resp : Nat → Nat → Nat → List Nat)
    (extra : Nat → Nat → Nat → Nat) :
    ∀ (steps : List CalStep) (i : Nat) (active : List (Nat × Nat))
      (newProb : List Nat) (ev : Ev),
      ev ∈ (run_steps mcount resp extra steps i active newProb).1 →
      (∃ d, ev = Ev.stepStart d) ∨ ev = Ev.prompt ∨
      ∃ g l, (g, l) ∈ active ∧
        ((∃ c, ev = Ev.send (write_code_local_cmd mcount l c)) ∨
         ev = Ev.send (poll_read_cmd mcount l)) := by
  intro steps
  induction steps with
  | nil => intro i active newProb ev h; simp [run_steps] at h
  | cons step rest ih =>
      intro i active newProb ev h
      rw [run_steps] at h
      by_cases hb : step.busy_poll = true
      · rw [if_pos hb] at h
        dsimp only at h
        rcases List.mem_append.mp h with h | h
        · rcases List.mem_append.mp h with h | h
          · rcases List.mem_cons.mp h with rfl | h
            · exact Or.inl ⟨_, rfl⟩
            rcases List.mem_append.mp h with h | h
            · by_cases hic : step.input_change = true
              · rw [if_pos hic] at h
                rcases List.mem_singleton.mp h with rfl
                exact Or.inr (Or.inl rfl)
              · rw [if_neg hic] at h
                simp at h
            · rcases hc : step.code with _ | c <;> rw [hc] at h
              · simp at h
              · obtain ⟨p, hp, rfl⟩ := List.mem_map.mp h
                exact Or.inr (Or.inr ⟨p.1, p.2, hp, Or.inl ⟨c, rfl⟩⟩)
          · obtain ⟨q, hq, rfl⟩ := pollLoopTrace_sends _ _ _ _ _ _ _ _ _ _ h
            exact Or.inr (Or.inr ⟨q.2, q.1, buildPending_mem_src hq, Or.inr rfl⟩)
        · rcases ih _ _ _ _ h with h' | h' | ⟨g, l, hgl, h'⟩
          · exact Or.inl h'
          · exact Or.inr (Or.inl h')
          · refine Or.inr (Or.inr ⟨g, l, ?_, h'⟩)
            by_cases hpe : (((poll_ready_all_localpairs (resp i) (extra i) active).map
                Prod.fst).getD []).isEmpty = true
            · rw [if_pos hpe] at hgl
              exact hgl
            · rw [if_neg hpe] at hgl
              exact (List.mem_filter.mp hgl).1
      · rw [if_neg hb] at h
        dsimp only at h
        rcases List.mem_append.mp h with h | h
        · rcases List.mem_cons.mp h with rfl | h
          · exact Or.inl ⟨_, rfl⟩
          rcases List.mem_append.mp h with h | h
          · by_cases hic : step.input_change = true
            · rw [if_pos hic] at h
              rcases List.mem_singleton.mp h with rfl
              exact Or.inr (Or.inl rfl)
            · rw [if_neg hic] at h
              simp at h
          · rcases hc : step.code with _ | c <;> rw [hc] at h
            · simp at h
            · obtain ⟨p, hp, rfl⟩ := List.mem_map.mp h
              exact Or.inr (Or.inr ⟨p.1, p.2, hp, Or.inl ⟨c, rfl⟩⟩)
        · rcases ih _ _ _ _ h with h' | h' | ⟨g, l, hgl, h'⟩
          · exact Or.inl h'
          · exact Or.inr (Or.inl h')
          · exact Or.inr (Or.inr ⟨g, l, hgl, h'⟩)

/-- A list is found at the head of itself followed by anything. -/
theorem subSeqAt_append (xs ys : List Char) : subSeqAt xs (xs ++ ys) = true := by
  induction xs with
  | nil => rfl
  | cons a as ih => simp [subSeqAt, ih]

/-- The head of a socket's nonempty global meter block is the block start
idx * METERS_PER_SOCKET + 1. -/
theorem meters_head (total idx : Nat)
    (h : (meters_for_socket_index total idx).isEmpty = false) :
    (meters_for_socket_index total idx).headD 0 = idx * METERS_PER_SOCKET + 1 := by
  rw [meters_for_socket_index] at h ⊢
  by_cases hc : min total (idx * METERS_PER_SOCKET + 1 + METERS_PER_SOCKET - 1) <
      idx * METERS_PER_SOCKET + 1
  · rw [if_pos hc] at h; simp at h
  · rw [if_neg hc] at h ⊢
    have hlen : idx * METERS_PER_SOCKET + 1 + METERS_PER_SOCKET ≥ 1 := by omega
    rcases hn : min total (idx * METERS_PER_SOCKET + 1 + METERS_PER_SOCKET - 1) + 1 -
        (idx * METERS_PER_SOCKET + 1) with _ | n
    · simp at h
      omega
    · rfl

/-- Bounds for a member of a socket's global meter block. -/
theorem meters_mem_bounds {total idx g : Nat}
    (h : g ∈ meters_for_socket_index total idx) :
    idx * METERS_PER_SOCKET + 1 ≤ g ∧ g ≤ total ∧
      g ≤ idx * METERS_PER_SOCKET + METERS_PER_SOCKET := by
  rw [meters_for_socket_index] at h
  by_cases hc : min total (idx * METERS_PER_SOCKET + 1 + METERS_PER_SOCKET - 1) <
      idx * METERS_PER_SOCKET + 1
  · rw [if_pos hc] at h; simp at h
  · rw [if_neg hc] at h
    rw [List.mem_range'] at h
    obtain ⟨h1, h2⟩ := h
    constructor
    · omega
    constructor
    · have := Nat.min_le_left total (idx * METERS_PER_SOCKET + 1 + METERS_PER_SOCKET - 1)
      omega
    · have := Nat.min_le_right total (idx * METERS_PER_SOCKET + 1 + METERS_PER_SOCKET - 1)
      omega

/-- Every event `calibrate_group_on_socket` emits is a step marker, an
operator prompt, or a send whose command was built from the LOCAL id of a
global meter in the socket's block, rebased as global − block_start + 1. -/
theorem calibrate_events (mcount : Nat) (resp : Nat → Nat → Nat → List Nat)
    (extra : Nat → Nat → Nat → Nat) (sockets_all : List (String × Nat))
    (ip : String) (port : Nat) (steps : List CalStep) (problematic : List Nat)
    (ev : Ev)
    (h : ev ∈ (calibrate_group_on_socket mcount resp extra sockets_all ip port
      steps problematic).1) :
    (∃ d, ev = Ev.stepStart d) ∨ ev = Ev.prompt ∨
    ∃ g l, g ∈ meters_for_socket_index mcount (sockets_all.indexOf (ip, port)) ∧
      l = g - (sockets_all.indexOf (ip, port) * METERS_PER_SOCKET + 1) + 1 ∧
      ((∃ c, ev = Ev.send (write_code_local_cmd mcount l c)) ∨
       ev = Ev.send (poll_read_cmd mcount l)) := by
  rw [calibrate_group_on_socket] at h
  by_cases hg : (meters_for_socket_index mcount (sockets_all.indexOf (ip, port))).isEmpty = true
  · rw [if_pos hg] at h; simp at h
  · rw [if_neg hg] at h
    dsimp only at h
    by_cases ha : (((meters_for_socket_index mcount (sockets_all.indexOf (ip, port))).filter
        (fun g => !(problematic.contains g))).map
        (fun g => (g, g - (meters_for_socket_index mcount
          (sockets_all.indexOf (ip, port))).headD 0 + 1))).isEmpty = true
  
    · rw [if_pos ha] at h; simp at h
    · rw [if_neg ha] at h
      rcases run_steps_events mcount resp extra steps 0 _ [] ev h with h' | h' | ⟨g, l, hgl, h'⟩
      · exact Or.inl h'
      · exact Or.inr (Or.inl h')
      · right; right
        obtain ⟨g', hg', hpair⟩ := List.mem_map.mp hgl
        obtain ⟨rfl, rfl⟩ : g' = g ∧ g' - (meters_for_socket_index mcount
            (sockets_all.indexOf (ip, port))).headD 0 + 1 = l := by
          exact ⟨congrArg Prod.fst hpair, congrArg Prod.snd hpair⟩
        have hgm := (List.mem_filter.mp hg').1
        refine ⟨g', _, hgm, ?_, h'⟩
        rw [meters_head mcount (sockets_all.indexOf (ip, port)) (by simpa using hg)]

/-- The per-socket loop never changes the bookmark field. -/
theorem run_sockets_group_const (mcount : Nat) (resp : Nat → Nat → Nat → Nat → List Nat)
    (extra : Nat → Nat → Nat → Nat → Nat) (sockets_all : List (String × Nat))
    (steps : List CalStep) (grp : Int) (raises : Nat → Bool) (failAt : Nat → Nat) :
    ∀ (socks : List (String × Nat)) (i : Nat) (progress : Progress)
      (problematic : List Nat),
      (run_sockets mcount resp extra sockets_all steps grp raises failAt socks i
        progress problematic).1.current_cal_group = progress.current_cal_group := by
  intro socks
  induction socks with
  | nil => intro i progress problematic; rfl
  | cons sp rest ih =>
      intro i progress problematic
      obtain ⟨ip, port⟩ := sp
      rw [run_sockets]
      dsimp only
      by_cases hskip : progress.doneKeys.contains (done_key grp ip port) = true
      · rw [if_pos hskip]; exact ih _ _ _
      · rw [if_neg hskip]
        by_cases hr : raises i = true
        · rw [if_pos hr]; exact ih _ _ _
        · rw [if_neg hr]; exact ih _ _ _

/-- Keys not belonging to any visited socket are unchanged by the loop. -/
theorem run_sockets_keys_untouched (mcount : Nat)
    (resp : Nat → Nat → Nat → Nat → List Nat) (extra : Nat → Nat → Nat → Nat → Nat)
    (sockets_all : List (String × Nat)) (steps : List CalStep) (grp : Int)
    (raises : Nat → Bool) (failAt : Nat → Nat) :
    ∀ (socks : List (String × Nat)) (i : Nat) (progress : Progress)
      (problematic : List Nat) (k : String),
      (∀ sp ∈ socks, done_key grp sp.1 sp.2 ≠ k) →
      (k ∈ (run_sockets mcount resp extra sockets_all steps grp raises failAt socks i
        progress problematic).1.doneKeys ↔ k ∈ progress.doneKeys) := by
  intro socks
  induction socks with
  | nil => intro i progress problematic k _; rfl
  | cons sp rest ih =>
      intro i progress problematic k hk
      obtain ⟨ip, port⟩ := sp
      rw [run_sockets]
      dsimp only
      have hk0 : done_key grp ip port ≠ k := hk (ip, port) (by simp)
      have hkr : ∀ sp ∈ rest, done_key grp sp.1 sp.2 ≠ k :=
        fun sp hsp => hk sp (List.mem_cons_of_mem _ hsp)
      by_cases hskip : progress.doneKeys.contains (done_key grp ip port) = true
      · rw [if_pos hskip]; exact ih _ _ _ _ hkr
      · rw [if_neg hskip]
        by_cases hr : raises i = true
        · rw [if_pos hr]; exact ih _ _ _ _ hkr
        · rw [if_neg hr]
          rw [ih _ _ _ _ hkr]
          constructor
          · intro h
            rcases List.mem_append.mp h with h | h
            · exact h
            · exact absurd (List.mem_singleton.mp h).symm hk0
          · intro h
            exact List.mem_append.mpr (Or.inl h)

/-- Done-flag bookkeeping of the per-socket loop: when the done keys of the
visited sockets are pairwise distinct, socket j's flag ends set exactly
when it was already set (the socket is skipped) or its step sequence ran
without an exception. -/
theorem run_sockets_done_char (mcount : Nat)
    (resp : Nat → Nat → Nat → Nat → List Nat) (extra : Nat → Nat → Nat → Nat → Nat)
    (sockets_all : List (String × Nat)) (steps : List CalStep) (grp : Int)
    (raises : Nat → Bool) (failAt : Nat → Nat) :
    ∀ (socks : List (String × Nat)) (i : Nat) (progress : Progress)
      (problematic : List Nat),
      (socks.map (fun sp => done_key grp sp.1 sp.2)).Nodup →
      ∀ (j : Nat) (hj : j < socks.length),
        (done_key grp (socks.get ⟨j, hj⟩).1 (socks.get ⟨j, hj⟩).2 ∈
            (run_sockets mcount resp extra sockets_all steps grp raises failAt socks i
              progress problematic).1.doneKeys ↔
          done_key grp (socks.get ⟨j, hj⟩).1 (socks.get ⟨j, hj⟩).2 ∈
            progress.doneKeys ∨ raises (i + j) = false) := by
  intro socks
  induction socks with
  | nil => intro i progress problematic _ j hj; exact absurd hj (by simp)
  | cons sp rest ih =>
      intro i progress problematic hnd j hj
      obtain ⟨ip, port⟩ := sp
      simp only [List.map_cons, List.nodup_cons] at hnd
      cases j with
      | zero =>
          have hget0 : (((ip, port) :: rest).get ⟨0, hj⟩) = (ip, port) := rfl
          rw [hget0]
          rw [run_sockets]
          dsimp only
          by_cases hskip : progress.doneKeys.contains (done_key grp ip port) = true
          · rw [if_pos hskip]
            have hmem : done_key grp ip port ∈ progress.doneKeys := by
              simpa [List.contains] using hskip
            rw [run_sockets_keys_untouched mcount resp extra sockets_all steps grp raises
              failAt rest _ _ _ _ (fun sp hsp hk => hnd.1 (by rw [← hk]; exact List.mem_map_of_mem _ hsp))]
            simp [hmem]
          · rw [if_neg hskip]
            have hmem : done_key grp ip port ∉ progress.doneKeys := by
              intro hc
              exact hskip (by simpa [List.contains] using hc)
            by_cases hr : raises i = true
            · rw [if_pos hr]
              rw [run_sockets_keys_untouched mcount resp extra sockets_all steps grp raises
                failAt rest _ _ _ _ (fun sp hsp hk => hnd.1 (by rw [← hk]; exact List.mem_map_of_mem _ hsp))]
              simp [hmem, hr]
            · rw [if_neg hr]
              rw [run_sockets_keys_untouched mcount resp extra sockets_all steps grp raises
                failAt rest _ _ _ _ (fun sp hsp hk => hnd.1 (by rw [← hk]; exact List.mem_map_of_mem _ hsp))]
              simp only [Bool.not_eq_true] at hr
              simp [hr]
      | succ j' =>
          have hj' : j' < rest.length := by simpa using hj
          have hget : ((ip, port) :: rest).get ⟨j' + 1, hj⟩ = rest.get ⟨j', hj'⟩ := rfl
          rw [hget]
          have hkey_mem : done_key grp (rest.get ⟨j', hj'⟩).1 (rest.get ⟨j', hj'⟩).2 ∈
              rest.map (fun sp => done_key grp sp.1 sp.2) :=
            List.mem_map_of_mem _ (List.get_mem rest j' hj')
          have hne : done_key grp ip port ≠
              done_key grp (rest.get ⟨j', hj'⟩).1 (rest.get ⟨j', hj'⟩).2 := by
            intro hc
            exact hnd.1 (hc ▸ hkey_mem)
          rw [run_sockets]
          dsimp only
          by_cases hskip : progress.doneKeys.contains (done_key grp ip port) = true
          · rw [if_pos hskip]
            rw [ih _ _ _ hnd.2 j' hj']
            constructor
            · rintro (h | h)
              · exact Or.inl h
              · right; rw [show i + (j' + 1) = i + 1 + j' from by omega]; exact h
            · rintro (h | h)
              · exact Or.inl h
              · right; rw [show i + 1 + j' = i + (j' + 1) from by omega]; exact h
          · rw [if_neg hskip]
            by_cases hr : raises i = true
            · rw [if_pos hr]
              rw [ih _ _ _ hnd.2 j' hj']
              constructor
              · rintro (h | h)
                · exact Or.inl h
                · right; rw [show i + (j' + 1) = i + 1 + j' from by omega]; exact h
              · rintro (h | h)
                · exact Or.inl h
                · right; rw [show i + 1 + j' = i + (j' + 1) from by omega]; exact h
            · rw [if_neg hr]
              rw [ih _ _ _ hnd.2 j' hj']
              have hsplit : done_key grp (rest.get ⟨j', hj'⟩).1 (rest.get ⟨j', hj'⟩).2 ∈
                  progress.doneKeys ++ [done_key grp ip port] ↔
                  done_key grp (rest.get ⟨j', hj'⟩).1 (rest.get ⟨j', hj'⟩).2 ∈
                    progress.doneKeys := by
                constructor
                · intro h
                  rcases List.mem_append.mp h with h | h
                  · exact h
                  · exact absurd (List.mem_singleton.mp h).symm hne
                · intro h
                  exact List.mem_append.mpr (Or.inl h)
              rw [hsplit]
              constructor
              · rintro (h | h)
                · exact Or.inl h
                · right; rw [show i + (j' + 1) = i + 1 + j' from by omega]; exact h
              · rintro (h | h)
                · exact Or.inl h
                · right; rw [show i + 1 + j' = i + (j' + 1) from by omega]; exact h

/-- Transport lifecycle of the per-socket loop: a socket whose done-flag is
already set contributes a skip marker; any other socket is opened and —
whether its step sequence completes or raises — closed. -/
theorem run_sockets_open_close (mcount : Nat)
    (resp : Nat → Nat → Nat → Nat → List Nat) (extra : Nat → Nat → Nat → Nat → Nat)
    (sockets_all : List (String × Nat)) (steps : List CalStep) (grp : Int)
    (raises : Nat → Bool) (failAt : Nat → Nat) :
    ∀ (socks : List (String × Nat)) (i : Nat) (progress : Progress)
      (problematic : List Nat),
      (socks.map (fun sp => done_key grp sp.1 sp.2)).Nodup →
      ∀ (j : Nat) (hj : j < socks.length),
        (done_key grp (socks.get ⟨j, hj⟩).1 (socks.get ⟨j, hj⟩).2 ∉ progress.doneKeys →
          Ev.openT (socks.get ⟨j, hj⟩).1 (socks.get ⟨j, hj⟩).2 ∈
            (run_sockets mcount resp extra sockets_all steps grp raises failAt socks i
              progress problematic).2.2 ∧
          Ev.closeT (socks.get ⟨j, hj⟩).1 (socks.get ⟨j, hj⟩).2 ∈
            (run_sockets mcount resp extra sockets_all steps grp raises failAt socks i
              progress problematic).2.2) ∧
        (done_key grp (socks.get ⟨j, hj⟩).1 (socks.get ⟨j, hj⟩).2 ∈ progress.doneKeys →
          Ev.skipSocket (socks.get ⟨j, hj⟩).1 (socks.get ⟨j, hj⟩).2 ∈
            (run_sockets mcount resp extra sockets_all steps grp raises failAt socks i
              progress problematic).2.2) := by
  intro socks
  induction socks with
  | nil => intro i progress problematic _ j hj; exact absurd hj (by simp)
  | cons sp rest ih =>
      intro i progress problematic hnd j hj
      obtain ⟨ip, port⟩ := sp
      simp only [List.map_cons, List.nodup_cons] at hnd
      cases j with
      | zero =>
          have hget0 : (((ip, port) :: rest).get ⟨0, hj⟩) = (ip, port) := rfl
          rw [hget0]
          rw [run_sockets]
          dsimp only
          by_cases hskip : progress.doneKeys.contains (done_key grp ip port) = true
          · rw [if_pos hskip]
            have hmem : done_key grp ip port ∈ progress.doneKeys := by
              simpa [List.contains] using hskip
            exact ⟨fun hno => absurd hmem hno, fun _ => List.mem_cons_self _ _⟩
          · rw [if_neg hskip]
            have hmem : done_key grp ip port ∉ progress.doneKeys := by
              intro hc
              exact hskip (by simpa [List.contains] using hc)
            by_cases hr : raises i = true
            · rw [if_pos hr]
              refine ⟨fun _ => ⟨List.mem_cons_self _ _, ?_⟩, fun hc => absurd hc hmem⟩
              exact List.mem_cons_of_mem _
                (List.mem_append.mpr (Or.inr (List.mem_cons_self _ _)))
            · rw [if_neg hr]
              refine ⟨fun _ => ⟨List.mem_cons_self _ _, ?_⟩, fun hc => absurd hc hmem⟩
              refine List.mem_cons_of_mem _ (List.mem_append.mpr (Or.inr ?_))
              exact List.mem_cons_of_mem _ (List.mem_cons_self _ _)
      | succ j' =>
          have hj' : j' < rest.length := by simpa using hj
          have hget : ((ip, port) :: rest).get ⟨j' + 1, hj⟩ = rest.get ⟨j', hj'⟩ := rfl
          rw [hget]
          have hne : done_key grp ip port ≠
              done_key grp (rest.get ⟨j', hj'⟩).1 (rest.get ⟨j', hj'⟩).2 := by
            intro hc
            exact hnd.1 (hc ▸ List.mem_map_of_mem _ (List.get_mem rest j' hj'))
          rw [run_sockets]
          dsimp only
          by_cases hskip : progress.doneKeys.contains (done_key grp ip port) = true
          · rw [if_pos hskip]
            obtain ⟨h1, h2⟩ := ih (i + 1) progress problematic hnd.2 j' hj'
            refine ⟨fun hno => ?_, fun hc => List.mem_cons_of_mem _ (h2 hc)⟩
            obtain ⟨ho, hcl⟩ := h1 hno
            exact ⟨List.mem_cons_of_mem _ ho, List.mem_cons_of_mem _ hcl⟩
          · rw [if_neg hskip]
            by_cases hr : raises i = true
            · rw [if_pos hr]
              obtain ⟨h1, h2⟩ := ih (i + 1) progress problematic hnd.2 j' hj'
              have lift : ∀ ev : Ev,
                  ev ∈ (run_sockets mcount resp extra sockets_all steps grp raises failAt
                    rest (i + 1) progress problematic).2.2 →
                  ev ∈ Ev.openT ip port ::
                    ((calibrate_group_on_socket mcount (resp i) (extra i) sockets_all ip
                        port steps problematic).1.take (failAt i) ++
                      Ev.closeT ip port ::
                        (run_sockets mcount resp extra sockets_all steps grp raises failAt
                          rest (i + 1) progress problematic).2.2) := by
                intro ev hev
                exact List.mem_cons_of_mem _
                  (List.mem_append.mpr (Or.inr (List.mem_cons_of_mem _ hev)))
              refine ⟨fun hno => ?_, fun hc => lift _ (h2 hc)⟩
              obtain ⟨ho, hcl⟩ := h1 hno
              exact ⟨lift _ ho, lift _ hcl⟩
            · rw [if_neg hr]
              have hkeep : (done_key grp (rest.get ⟨j', hj'⟩).1 (rest.get ⟨j', hj'⟩).2 ∈
                  progress.doneKeys ++ [done_key grp ip port]) ↔
                  done_key grp (rest.get ⟨j', hj'⟩).1 (rest.get ⟨j', hj'⟩).2 ∈
                    progress.doneKeys := by
                constructor
                · intro h
                  rcases List.mem_append.mp h with h | h
                  · exact h
                  · exact absurd (List.mem_singleton.mp h).symm hne
                · intro h
                  exact List.mem_append.mpr (Or.inl h)
              obtain ⟨h1, h2⟩ := ih (i + 1)
                { progress with doneKeys := progress.doneKeys ++ [done_key grp ip port] }
                (if (calibrate_group_on_socket mcount (resp i) (extra i) sockets_all ip
                      port steps problematic).2.isEmpty then problematic
                 else listUnion problematic
                   (calibrate_group_on_socket mcount (resp i) (extra i) sockets_all ip
                     port steps problematic).2)
                hnd.2 j' hj'
              have lift : ∀ ev : Ev,
                  ev ∈ (run_sockets mcount resp extra sockets_all steps grp raises failAt
                    rest (i + 1)
                    { progress with doneKeys := progress.doneKeys ++ [done_key grp ip port] }
                    (if (calibrate_group_on_socket mcount (resp i) (extra i) sockets_all ip
                          port steps problematic).2.isEmpty then problematic
                     else listUnion problematic
                       (calibrate_group_on_socket mcount (resp i) (extra i) sockets_all ip
                         port steps problematic).2)).2.2 →
                  ev ∈ Ev.openT ip port ::
                    ((calibrate_group_on_socket mcount (resp i) (extra i) sockets_all ip
                        port steps problematic).1 ++
                      (if (calibrate_group_on_socket mcount (resp i) (extra i) sockets_all
                            ip port steps problematic).2.isEmpty then []
                       else [Ev.saveProblematic (sortNat (listUnion problematic
                         (calibrate_group_on_socket mcount (resp i) (extra i) sockets_all
                           ip port steps problematic).2))]) ++
                      Ev.saveProgress ::
                        Ev.closeT ip port ::
                          (run_sockets mcount resp extra sockets_all steps grp raises
                            failAt rest (i + 1)
                            { progress with
                                doneKeys := progress.doneKeys ++ [done_key grp ip port] }
                            (if (calibrate_group_on_socket mcount (resp i) (extra i)
                                  sockets_all ip port steps problematic).2.isEmpty then
                              problematic
                             else listUnion problematic
                               (calibrate_group_on_socket mcount (resp i) (extra i)
                                 sockets_all ip port steps problematic).2)).2.2) := by
                intro ev hev
                refine List.mem_cons_of_mem _ (List.mem_append.mpr (Or.inr ?_))
                exact List.mem_cons_of_mem _ (List.mem_cons_of_mem _ hev)
              refine ⟨fun hno => ?_, fun hc => ?_⟩
              · obtain ⟨ho, hcl⟩ := h1 (by
                  intro hc
                  exact hno (hkeep.mp hc))
                exact ⟨lift _ ho, lift _ hcl⟩
              · exact lift _ (h2 (hkeep.mpr hc))

/-- C6. Rebasing invariant: every MCW command `calibrate_group_on_socket`
hands to a socket's transport is built from a local id computed as
global − block_start + 1 for a global meter of that socket's block; the
local id always lies in 1..METERS_PER_SOCKET and is the id embedded in the
MCW prefix of the wire string, so a GlobalMeterId is never transmitted;
concretely, socket index 1 with 20 meters covers globals 11..20 and global
15 rebases to local 5. -/
theorem rebasing_invariant :
    (∀ (mcount : Nat) (resp : Nat → Nat → Nat → List Nat)
       (extra : Nat → Nat → Nat → Nat) (sockets_all : List (String × Nat))
       (ip : String) (port : Nat) (steps : List CalStep) (problematic : List Nat)
       (cmd : Option (List Char)),
       Ev.send cmd ∈ (calibrate_group_on_socket mcount resp extra sockets_all ip port
         steps problematic).1 →
       ∃ g l, g ∈ meters_for_socket_index mcount (sockets_all.indexOf (ip, port)) ∧
         l = g - (sockets_all.indexOf (ip, port) * METERS_PER_SOCKET + 1) + 1 ∧
         1 ≤ l ∧ l ≤ METERS_PER_SOCKET ∧
         ((∃ c, cmd = write_code_local_cmd mcount l c) ∨ cmd = poll_read_cmd mcount l) ∧
         (∀ s, cmd = some s →
           subSeqAt ("MCW" ++ toString (l : Int) ++ ",").data s = true)) ∧
    meters_for_socket_index 20 1 = [11, 12, 13, 14, 15, 16, 17, 18, 19, 20] ∧
    15 - (1 * METERS_PER_SOCKET + 1) + 1 = 5 := by
  refine ⟨?_, by decide, by decide⟩
  intro mcount resp extra sockets_all ip port steps problematic cmd h
  rcases calibrate_events mcount resp extra sockets_all ip port steps problematic _ h with
    ⟨d, hd⟩ | hd | ⟨g, l, hg, hl, hcmd⟩
  · exact absurd hd (by simp)
  · exact absurd hd (by simp)
  · obtain ⟨hb1, hb2, hb3⟩ := meters_mem_bounds hg
    have hl1 : 1 ≤ l := by omega
    have hl10 : l ≤ METERS_PER_SOCKET := by omega
    have hlm : l ≤ mcount := by omega
    have hcast0 : (0 : Int) ≤ (l : Int) := by positivity
    have hcastm : (l : Int) ≤ (mcount : Int) := by exact_mod_cast hlm
    rcases hcmd with ⟨c, hc⟩ | hc
    · refine ⟨g, l, hg, hl, hl1, hl10, Or.inl ⟨c, by injection hc⟩, ?_⟩
      intro s hs
      have hcmd' : cmd = write_code_local_cmd mcount l c := by injection hc
      obtain ⟨raw, hraw⟩ : ∃ raw, write_code_local_cmd mcount l c =
          build_simple_mcw mcount (l : Int) raw := ⟨_, rfl⟩
      rw [hcmd', hraw, build_simple_mcw_ok mcount (l : Int) raw hcast0 hcastm] at hs
      obtain rfl : ("MCW" ++ toString (l : Int) ++ ",").data ++ bytes_to_mcw_hex raw = s :=
        by injection hs
      exact subSeqAt_append _ _
    · refine ⟨g, l, hg, hl, hl1, hl10, Or.inr (by injection hc), ?_⟩
      intro s hs
      have hcmd' : cmd = poll_read_cmd mcount l := by injection hc
      obtain ⟨raw, hraw⟩ : ∃ raw, poll_read_cmd mcount l =
          build_simple_mcw mcount (l : Int) raw := ⟨_, rfl⟩
      rw [hcmd', hraw, build_simple_mcw_ok mcount (l : Int) raw hcast0 hcastm] at hs
      obtain rfl : ("MCW" ++ toString (l : Int) ++ ",").data ++ bytes_to_mcw_hex raw = s :=
        by injection hs
      exact subSeqAt_append _ _

/-- Closed witness for the rebasing invariant: the single write command of
a one-step unlock group on a one-meter, one-socket configuration. -/
theorem rebasing_invariant_witness :
    ∃ g l, g ∈ meters_for_socket_index 1
        ((([("a", 1)] : List (String × Nat)).indexOf ("a", 1))) ∧
      l = g - (([("a", 1)] : List (String × Nat)).indexOf ("a", 1) * METERS_PER_SOCKET + 1) + 1 ∧
      1 ≤ l ∧ l ≤ METERS_PER_SOCKET ∧
      ((∃ c, write_code_local_cmd 1 1 2023 = write_code_local_cmd 1 l c) ∨
        write_code_local_cmd 1 1 2023 = poll_read_cmd 1 l) ∧
      (∀ s, write_code_local_cmd 1 1 2023 = some s →
        subSeqAt ("MCW" ++ toString (l : Int) ++ ",").data s = true) :=
  rebasing_invariant.1 1 (fun _ _ _ => []) (fun _ _ _ => 0) [("a", 1)] "a" 1
    [⟨"Unlock Calibration", some 2023, 0, false, false⟩] [] (write_code_local_cmd 1 1 2023)
    (by decide)

/-- C4 counterexample: one socket, one meter, group 4, a transport that
never reports ready. The first busy-poll step (Export Current Quantization)
discovers global meter 1 as problematic, yet the next step of the same
socket's sequence (Export Voltage Quantization) starts at trace index 36
while the first durable write of the problematic set only happens at index
38, after the whole step sequence — so the flush is not immediate. -/
theorem flush_timing_counterexample :
    (traceOf (run_quant_compensation_3p4w ⟨1, [("a", 1)]⟩ (fun _ _ _ _ => [])
        (fun _ _ _ _ => 0) (fun _ => false) (fun _ => 0) ⟨4, []⟩ [])).findIdx?
      (isStepNamed "Export Voltage Quantization") = some 36 ∧
    (traceOf (run_quant_compensation_3p4w ⟨1, [("a", 1)]⟩ (fun _ _ _ _ => [])
        (fun _ _ _ _ => 0) (fun _ => false) (fun _ => 0) ⟨4, []⟩ [])).findIdx?
      isSaveProb = some 38 ∧
    (traceOf (run_quant_compensation_3p4w ⟨1, [("a", 1)]⟩ (fun _ _ _ _ => [])
        (fun _ _ _ _ => 0) (fun _ => false) (fun _ => 0) ⟨4, []⟩ [])).getD 38 Ev.prompt =
      Ev.saveProblematic [1] ∧
    (36 : Nat) < 38 := by
  exact ⟨by decide, by decide, by decide, by decide⟩

/-- C4 (amended). Durability of problematic discoveries: a socket's step
sequence itself never writes the problematic set to durable storage; when
the socket's sequence completes without an exception and discovered new
problematic meters, the orchestrator flushes the updated set right after
the sequence — before the done-flag write, the transport close, and all of
the next socket's processing — but not between steps of the sequence. -/
theorem problematic_flush_after_socket :
    (∀ (mcount : Nat) (resp : Nat → Nat → Nat → List Nat)
       (extra : Nat → Nat → Nat → Nat) (sockets_all : List (String × Nat))
       (ip : String) (port : Nat) (steps : List CalStep) (problematic : List Nat)
       (ev : Ev),
       ev ∈ (calibrate_group_on_socket mcount resp extra sockets_all ip port steps
         problematic).1 → isSaveProb ev = false) ∧
    (∀ (mcount : Nat) (resp : Nat → Nat → Nat → Nat → List Nat)
       (extra : Nat → Nat → Nat → Nat → Nat) (sockets_all : List (String × Nat))
       (steps : List CalStep) (grp : Int) (raises : Nat → Bool) (failAt : Nat → Nat)
       (ip : String) (port : Nat) (rest : List (String × Nat)) (i : Nat)
       (progress : Progress) (problematic : List Nat),
       progress.doneKeys.contains (done_key grp ip port) = false →
       raises i = false →
       ∃ tail : List Ev,
         (run_sockets mcount resp extra sockets_all steps grp raises failAt
             ((ip, port) :: rest) i progress problematic).2.2 =
           Ev.openT ip port ::
             ((calibrate_group_on_socket mcount (resp i) (extra i) sockets_all ip port
                 steps problematic).1 ++
              (if (calibrate_group_on_socket mcount (resp i) (extra i) sockets_all ip
                    port steps problematic).2.isEmpty then ([] : List Ev)
               else [Ev.saveProblematic (sortNat (listUnion problematic
                 (calibrate_group_on_socket mcount (resp i) (extra i) sockets_all ip
                   port steps problematic).2))]) ++
              Ev.saveProgress :: Ev.closeT ip port :: tail)) := by
  constructor
  · intro mcount resp extra sockets_all ip port steps problematic ev h
    rcases calibrate_events mcount resp extra sockets_all ip port steps problematic ev h
      with ⟨d, rfl⟩ | rfl | ⟨g, l, -, -, h'⟩
    · rfl
    · rfl
    · rcases h' with ⟨c, rfl⟩ | rfl <;> rfl
  · intro mcount resp extra sockets_all steps grp raises failAt ip port rest i progress
      problematic hskip hraise
    refine ⟨(run_sockets mcount resp extra sockets_all steps grp raises failAt rest (i + 1)
        { progress with doneKeys := progress.doneKeys ++ [done_key grp ip port] }
        (if (calibrate_group_on_socket mcount (resp i) (extra i) sockets_all ip port steps
              problematic).2.isEmpty then problematic
         else listUnion problematic
           (calibrate_group_on_socket mcount (resp i) (extra i) sockets_all ip port steps
             problematic).2)).2.2, ?_⟩
    rw [run_sockets]
    dsimp only
    rw [if_neg (by rw [hskip]; simp), if_neg (by rw [hraise]; simp)]

/-- Closed witness for the flush-timing theorem: an empty step group on a
fresh one-socket configuration. -/
theorem problematic_flush_after_socket_witness :
    ∃ tail : List Ev,
      (run_sockets 1 (fun _ _ _ _ => []) (fun _ _ _ _ => 0) [("a", 1)] [] 1
          (fun _ => false) (fun _ => 0) [("a", 1)] 0 ⟨1, []⟩ []).2.2 =
        Ev.openT "a" 1 ::
          ((calibrate_group_on_socket 1 (fun _ _ _ => []) (fun _ _ _ => 0) [("a", 1)]
              "a" 1 [] []).1 ++
           (if (calibrate_group_on_socket 1 (fun _ _ _ => []) (fun _ _ _ => 0) [("a", 1)]
                 "a" 1 [] []).2.isEmpty then ([] : List Ev)
            else [Ev.saveProblematic (sortNat (listUnion []
              (calibrate_group_on_socket 1 (fun _ _ _ => []) (fun _ _ _ => 0) [("a", 1)]
                "a" 1 [] []).2))]) ++
           Ev.saveProgress :: Ev.closeT "a" 1 :: tail) :=
  problematic_flush_after_socket.2 1 (fun _ _ _ _ => []) (fun _ _ _ _ => 0) [("a", 1)]
    [] 1 (fun _ => false) (fun _ => 0) "a" 1 [] 0 ⟨1, []⟩ [] (by decide) (by decide)

/-- The bookmark normalization step never changes the done-flags. -/
theorem progress1_doneKeys (p : Progress) :
    (if p.current_cal_group < 1 ∨ (CAL_GROUPS.length : Int) < p.current_cal_group
     then { p with current_cal_group := 1 } else p).doneKeys = p.doneKeys := by
  split <;> rfl

/-- After normalization the bookmark holds the normalized group. -/
theorem progress1_group (p : Progress) :
    (if p.current_cal_group < 1 ∨ (CAL_GROUPS.length : Int) < p.current_cal_group
     then { p with current_cal_group := 1 } else p).current_cal_group =
      normalized_group p := by
  rw [normalized_group]
  split <;> rfl

/-- C7. Transport-failure isolation: for every configuration with sockets
and meters and pairwise distinct done-keys, the orchestrator terminates
normally; a socket whose step sequence raised keeps its done-flag unset
(the flag ends set exactly when it was set before the run or the sequence
ran without an exception); every socket whose flag was initially unset is
opened AND closed — on the normal path and on the exception path alike —
and processing reaches every configured socket (skipped ones leave a skip
marker instead). -/
theorem transport_failure_isolation (cfg : RunConfig)
    (resp : Nat → Nat → Nat → Nat → List Nat) (extra : Nat → Nat → Nat → Nat → Nat)
    (raises : Nat → Bool) (failAt : Nat → Nat) (progress0 : Progress)
    (problematic0 : List Nat) (hs : cfg.sockets.isEmpty = false)
    (hm : ¬cfg.meter_count = 0)
    (hnd : (cfg.sockets.map
      (fun sp => done_key (normalized_group progress0) sp.1 sp.2)).Nodup) :
    ∃ (p : Progress) (pb : List Nat) (tr : List Ev) (adv full : Bool),
      run_quant_compensation_3p4w cfg resp extra raises failAt progress0 problematic0 =
        .finished p pb tr adv full ∧
      ∀ (j : Nat) (hj : j < cfg.sockets.length),
        (done_key (normalized_group progress0) (cfg.sockets.get ⟨j, hj⟩).1
            (cfg.sockets.get ⟨j, hj⟩).2 ∈ p.doneKeys ↔
          done_key (normalized_group progress0) (cfg.sockets.get ⟨j, hj⟩).1
            (cfg.sockets.get ⟨j, hj⟩).2 ∈ progress0.doneKeys ∨ raises j = false) ∧
        (done_key (normalized_group progress0) (cfg.sockets.get ⟨j, hj⟩).1
            (cfg.sockets.get ⟨j, hj⟩).2 ∉ progress0.doneKeys →
          Ev.openT (cfg.sockets.get ⟨j, hj⟩).1 (cfg.sockets.get ⟨j, hj⟩).2 ∈ tr ∧
          Ev.closeT (cfg.sockets.get ⟨j, hj⟩).1 (cfg.sockets.get ⟨j, hj⟩).2 ∈ tr) ∧
        (done_key (normalized_group progress0) (cfg.sockets.get ⟨j, hj⟩).1
            (cfg.sockets.get ⟨j, hj⟩).2 ∈ progress0.doneKeys →
          Ev.skipSocket (cfg.sockets.get ⟨j, hj⟩).1 (cfg.sockets.get ⟨j, hj⟩).2 ∈ tr) := by
  rw [run_quant_compensation_3p4w, if_neg (by rw [hs]; simp), if_neg hm]
  dsimp only
  set CG := normalized_group progress0 with hCG
  set P1 := (if progress0.current_cal_group < 1 ∨
      (CAL_GROUPS.length : Int) < progress0.current_cal_group
    then { progress0 with current_cal_group := 1 } else progress0) with hP1
  set OUT := run_sockets cfg.meter_count resp extra cfg.sockets
    (CAL_GROUPS.getD (CG.toNat - 1) []) CG raises failAt cfg.sockets 0 P1 problematic0
    with hOUT
  have hkeys : P1.doneKeys = progress0.doneKeys := by
    rw [hP1]; exact progress1_doneKeys progress0
  have hchar := run_sockets_done_char cfg.meter_count resp extra cfg.sockets
    (CAL_GROUPS.getD (CG.toNat - 1) []) CG raises failAt cfg.sockets 0 P1 problematic0 hnd
  have hoc := run_sockets_open_close cfg.meter_count resp extra cfg.sockets
    (CAL_GROUPS.getD (CG.toNat - 1) []) CG raises failAt cfg.sockets 0 P1 problematic0 hnd
  rw [← hOUT] at hchar hoc
  rw [hkeys] at hchar hoc
  have main : ∀ (tr : List Ev),
      (∀ ev ∈ OUT.2.2, ev ∈ tr) →
      ∀ (j : Nat) (hj : j < cfg.sockets.length),
        (done_key CG (cfg.sockets.get ⟨j, hj⟩).1 (cfg.sockets.get ⟨j, hj⟩).2 ∈
            OUT.1.doneKeys ↔
          done_key CG (cfg.sockets.get ⟨j, hj⟩).1 (cfg.sockets.get ⟨j, hj⟩).2 ∈
            progress0.doneKeys ∨ raises j = false) ∧
        (done_key CG (cfg.sockets.get ⟨j, hj⟩).1 (cfg.sockets.get ⟨j, hj⟩).2 ∉
            progress0.doneKeys →
          Ev.openT (cfg.sockets.get ⟨j, hj⟩).1 (cfg.sockets.get ⟨j, hj⟩).2 ∈ tr ∧
          Ev.closeT (cfg.sockets.get ⟨j, hj⟩).1 (cfg.sockets.get ⟨j, hj⟩).2 ∈ tr) ∧
        (done_key CG (cfg.sockets.get ⟨j, hj⟩).1 (cfg.sockets.get ⟨j, hj⟩).2 ∈
            progress0.doneKeys →
          Ev.skipSocket (cfg.sockets.get ⟨j, hj⟩).1 (cfg.sockets.get ⟨j, hj⟩).2 ∈ tr) := by
    intro tr htr j hj
    refine ⟨by simpa using hchar j hj, ?_, ?_⟩
    · intro hno
      obtain ⟨ho, hcl⟩ := (hoc j hj).1 hno
      exact ⟨htr _ ho, htr _ hcl⟩
    · intro hyes
      exact htr _ ((hoc j hj).2 hyes)
  by_cases hall : ((cfg.sockets.map
      (fun sp => OUT.1.doneKeys.contains (done_key CG sp.1 sp.2))).all id) = true
  · rw [if_pos hall]
    by_cases hcg : CG < (CAL_GROUPS.length : Int)
    · rw [if_pos hcg]
      refine ⟨_, _, _, _, _, rfl, main _ ?_ ⟩
      intro ev hev
      exact List.mem_append.mpr (Or.inl (List.mem_append.mpr (Or.inr hev)))
    · rw [if_neg hcg]
      refine ⟨_, _, _, _, _, rfl, main _ ?_⟩
      intro ev hev
      exact List.mem_append.mpr (Or.inr hev)
  · rw [if_neg hall]
    refine ⟨_, _, _, _, _, rfl, main _ ?_⟩
    intro ev hev
    exact List.mem_append.mpr (Or.inr hev)

/-- Closed witness for the failure-isolation theorem: a single socket with
one meter, a silent transport, and no exceptions. -/
theorem transport_failure_isolation_witness :
    ∃ (p : Progress) (pb : List Nat) (tr : List Ev) (adv full : Bool),
      run_quant_compensation_3p4w ⟨1, [("a", 1)]⟩ (fun _ _ _ _ => [])
          (fun _ _ _ _ => 0) (fun _ => false) (fun _ => 0) ⟨1, []⟩ [] =
        .finished p pb tr adv full ∧
      ∀ (j : Nat) (hj : j < ([("a", 1)] : List (String × Nat)).length),
        (done_key (normalized_group ⟨1, []⟩)
            (([("a", 1)] : List (String × Nat)).get ⟨j, hj⟩).1
            (([("a", 1)] : List (String × Nat)).get ⟨j, hj⟩).2 ∈ p.doneKeys ↔
          done_key (normalized_group ⟨1, []⟩)
            (([("a", 1)] : List (String × Nat)).get ⟨j, hj⟩).1
            (([("a", 1)] : List (String × Nat)).get ⟨j, hj⟩).2 ∈
            (⟨1, []⟩ : Progress).doneKeys ∨ (fun _ => false : Nat → Bool) j = false) ∧
        (done_key (normalized_group ⟨1, []⟩)
            (([("a", 1)] : List (String × Nat)).get ⟨j, hj⟩).1
            (([("a", 1)] : List (String × Nat)).get ⟨j, hj⟩).2 ∉
            (⟨1, []⟩ : Progress).doneKeys →
          Ev.openT (([("a", 1)] : List (String × Nat)).get ⟨j, hj⟩).1
            (([("a", 1)] : List (String × Nat)).get ⟨j, hj⟩).2 ∈ tr ∧
          Ev.closeT (([("a", 1)] : List (String × Nat)).get ⟨j, hj⟩).1
            (([("a", 1)] : List (String × Nat)).get ⟨j, hj⟩).2 ∈ tr) ∧
        (done_key (normalized_group ⟨1, []⟩)
            (([("a", 1)] : List (String × Nat)).get ⟨j, hj⟩).1
            (([("a", 1)] : List (String × Nat)).get ⟨j, hj⟩).2 ∈
            (⟨1, []⟩ : Progress).doneKeys →
          Ev.skipSocket (([("a", 1)] : List (String × Nat)).get ⟨j, hj⟩).1
            (([("a", 1)] : List (String × Nat)).get ⟨j, hj⟩).2 ∈ tr) :=
  transport_failure_isolation ⟨1, [("a", 1)]⟩ (fun _ _ _ _ => []) (fun _ _ _ _ => 0)
    (fun _ => false) (fun _ => 0) ⟨1, []⟩ [] (by decide) (by decide) (by decide)

/-- C5. Bookmark progression: after all configured sockets are visited, if
every socket's done-flag for the (normalized) current group is set and
more groups remain, the persisted bookmark becomes current+1 and the run
reports advancement; if the current group is the last, the bookmark is
unchanged and full completion is reported; if any flag is unset the
bookmark is unchanged, nothing else is reported, and exactly the sockets
whose step sequences completed (or were already done) have their flags
set. -/
theorem bookmark_progression (cfg : RunConfig)
    (resp : Nat → Nat → Nat → Nat → List Nat) (extra : Nat → Nat → Nat → Nat → Nat)
    (raises : Nat → Bool) (failAt : Nat → Nat) (progress0 : Progress)
    (problematic0 : List Nat) (hs : cfg.sockets.isEmpty = false)
    (hm : ¬cfg.meter_count = 0)
    (hnd : (cfg.sockets.map
      (fun sp => done_key (normalized_group progress0) sp.1 sp.2)).Nodup) :
    ∃ (p : Progress) (pb : List Nat) (tr : List Ev) (adv full : Bool),
      run_quant_compensation_3p4w cfg resp extra raises failAt progress0 problematic0 =
        .finished p pb tr adv full ∧
      ((∀ sp ∈ cfg.sockets,
          done_key (normalized_group progress0) sp.1 sp.2 ∈ p.doneKeys) →
        (normalized_group progress0 < (CAL_GROUPS.length : Int) →
          p.current_cal_group = normalized_group progress0 + 1 ∧
          adv = true ∧ full = false) ∧
        (¬normalized_group progress0 < (CAL_GROUPS.length : Int) →
          p.current_cal_group = normalized_group progress0 ∧
          adv = false ∧ full = true)) ∧
      ((¬∀ sp ∈ cfg.sockets,
          done_key (normalized_group progress0) sp.1 sp.2 ∈ p.doneKeys) →
        p.current_cal_group = normalized_group progress0 ∧
        adv = false ∧ full = false) ∧
      (∀ (j : Nat) (hj : j < cfg.sockets.length),
        done_key (normalized_group progress0) (cfg.sockets.get ⟨j, hj⟩).1
            (cfg.sockets.get ⟨j, hj⟩).2 ∈ p.doneKeys ↔
          done_key (normalized_group progress0) (cfg.sockets.get ⟨j, hj⟩).1
            (cfg.sockets.get ⟨j, hj⟩).2 ∈ progress0.doneKeys ∨
          raises j = false) := by
  rw [run_quant_compensation_3p4w, if_neg (by rw [hs]; simp), if_neg hm]
  dsimp only
  set CG := normalized_group progress0 with hCG
  set P1 := (if progress0.current_cal_group < 1 ∨
      (CAL_GROUPS.length : Int) < progress0.current_cal_group
    then { progress0 with current_cal_group := 1 } else progress0) with hP1
  set OUT := run_sockets cfg.meter_count resp extra cfg.sockets
    (CAL_GROUPS.getD (CG.toNat - 1) []) CG raises failAt cfg.sockets 0 P1 problematic0
    with hOUT
  have hkeys : P1.doneKeys = progress0.doneKeys := by
    rw [hP1]; exact progress1_doneKeys progress0
  have hchar := run_sockets_done_char cfg.meter_count resp extra cfg.sockets
    (CAL_GROUPS.getD (CG.toNat - 1) []) CG raises failAt cfg.sockets 0 P1 problematic0 hnd
  rw [← hOUT] at hchar
  rw [hkeys] at hchar
  have hCGrp : OUT.1.current_cal_group = CG := by
    rw [hOUT, run_sockets_group_const cfg.meter_count resp extra cfg.sockets
      (CAL_GROUPS.getD (CG.toNat - 1) []) CG raises failAt cfg.sockets 0 P1 problematic0,
      hP1]
    rw [hCG]
    exact progress1_group progress0
  have hallIff : (((cfg.sockets.map
      (fun sp => OUT.1.doneKeys.contains (done_key CG sp.1 sp.2))).all id) = true) ↔
      (∀ sp ∈ cfg.sockets, done_key CG sp.1 sp.2 ∈ OUT.1.doneKeys) := by
    rw [List.all_eq_true]
    constructor
    · intro h sp hsp
      have := h _ (List.mem_map_of_mem _ hsp)
      simpa [List.contains] using this
    · intro h b hb
      obtain ⟨sp, hsp, rfl⟩ := List.mem_map.mp hb
      simpa [List.contains] using h sp hsp
  by_cases hall : ((cfg.sockets.map
      (fun sp => OUT.1.doneKeys.contains (done_key CG sp.1 sp.2))).all id) = true
  · rw [if_pos hall]
    by_cases hcg : CG < (CAL_GROUPS.length : Int)
    · rw [if_pos hcg]
      refine ⟨_, _, _, _, _, rfl, ?_, ?_, ?_⟩
      · intro _
        exact ⟨fun _ => ⟨rfl, rfl, rfl⟩, fun hncg => absurd hcg hncg⟩
      · intro hn
        exact absurd (hallIff.mp hall) hn
      · intro j hj
        simpa using hchar j hj
    · rw [if_neg hcg]
      refine ⟨_, _, _, _, _, rfl, ?_, ?_, ?_⟩
      · intro _
        exact ⟨fun hcg' => absurd hcg' hcg, fun _ => ⟨hCGrp, rfl, rfl⟩⟩
      · intro hn
        exact absurd (hallIff.mp hall) hn
      · intro j hj
        simpa using hchar j hj
  · rw [if_neg hall]
    refine ⟨_, _, _, _, _, rfl, ?_, ?_, ?_⟩
    · intro hmem
      exact absurd (hallIff.mpr hmem) hall
    · intro _
      exact ⟨hCGrp, rfl, rfl⟩
    · intro j hj
      simpa using hchar j hj

/-- Closed witness for the bookmark progression theorem: one socket, one
meter, a silent transport, starting at group 1 with no progress. -/
theorem bookmark_progression_witness :
    ∃ (p : Progress) (pb : List Nat) (tr : List Ev) (adv full : Bool),
      run_quant_compensation_3p4w ⟨1, [("a", 1)]⟩ (fun _ _ _ _ => [])
          (fun _ _ _ _ => 0) (fun _ => false) (fun _ => 0) ⟨1, []⟩ [] =
        .finished p pb tr adv full ∧
      ((∀ sp ∈ ([("a", 1)] : List (String × Nat)),
          done_key (normalized_group ⟨1, []⟩) sp.1 sp.2 ∈ p.doneKeys) →
        (normalized_group ⟨1, []⟩ < (CAL_GROUPS.length : Int) →
          p.current_cal_group = normalized_group ⟨1, []⟩ + 1 ∧
          adv = true ∧ full = false) ∧
        (¬normalized_group ⟨1, []⟩ < (CAL_GROUPS.length : Int) →
          p.current_cal_group = normalized_group ⟨1, []⟩ ∧
          adv = false ∧ full = true)) ∧
      ((¬∀ sp ∈ ([("a", 1)] : List (String × Nat)),
          done_key (normalized_group ⟨1, []⟩) sp.1 sp.2 ∈ p.doneKeys) →
        p.current_cal_group = normalized_group ⟨1, []⟩ ∧
        adv = false ∧ full = false) ∧
      (∀ (j : Nat) (hj : j < ([("a", 1)] : List (String × Nat)).length),
        done_key (normalized_group ⟨1, []⟩)
            (([("a", 1)] : List (String × Nat)).get ⟨j, hj⟩).1
            (([("a", 1)] : List (String × Nat)).get ⟨j, hj⟩).2 ∈ p.doneKeys ↔
          done_key (normalized_group ⟨1, []⟩)
            (([("a", 1)] : List (String × Nat)).get ⟨j, hj⟩).1
            (([("a", 1)] : List (String × Nat)).get ⟨j, hj⟩).2 ∈
            (⟨1, []⟩ : Progress).doneKeys ∨
          (fun _ => false : Nat → Bool) j = false) :=
  bookmark_progression ⟨1, [("a", 1)]⟩ (fun _ _ _ _ => []) (fun _ _ _ _ => 0)
    (fun _ => false) (fun _ => 0) ⟨1, []⟩ [] (by decide) (by decide) (by decide)
